import Mathlib

/-!
Argon2id password hashing service: codec and verification.

A shallow embedding of `pkg/auth/hash` (`argon.go`, `utils.go`, `injection.go`).

Modelling conventions.

* A Go `string` is the list of its Unicode code points (`List Char`), so the
  strings considered are the valid UTF-8 ones.  A Go `[]byte` is a
  `List Byte` with `Byte = Fin 256`; a nil slice or nil pointer is `none`.
* `uint32` / `uint8` / `int` values are natural numbers or integers; every
  place where Go checks a range or truncates does so explicitly here.
* A Go `error` is a value of `GoError`; the nil error is `none`.
* The library functions the package calls (`strings.Split`, `fmt.Sscanf`,
  `fmt.Sprintf`, `base64.RawStdEncoding`, `subtle.ConstantTimeCompare`,
  `argon2.IDKey`, `crypto/rand.Read`) are modelled after the Go standard
  library on a 64-bit platform.  The Argon2 mixing function and the entropy
  source are parameters.
-/

namespace Hash

/-! ## Errors and basic types -/

/-- Messages of the errors `fmt` creates while scanning. -/
inductive ScanMsg where
  | inputDoesNotMatchFormat
  | unexpectedNewline
  | expectedInteger
  | integerOverflow
  | unsignedIntegerOverflow
  deriving DecidableEq, Repr

/-- Go `error` values that can flow through the package. -/
inductive GoError where
  /-- The package variable `ErrInvalidHash`. -/
  | ErrInvalidHash
  /-- The package variable `ErrIncompatibleVersion`. -/
  | ErrIncompatibleVersion
  /-- The sentinel `io.EOF`. -/
  | EOF
  /-- The sentinel `io.ErrUnexpectedEOF`. -/
  | ErrUnexpectedEOF
  /-- An error created by the scanner of `fmt`. -/
  | scanError (msg : ScanMsg)
  /-- A `*strconv.NumError` wrapping `strconv.ErrRange`. -/
  | numErrorRange
  /-- A `base64.CorruptInputError` (its byte offset is not modelled). -/
  | corruptInputError
  /-- A failure of the entropy source, identified by a code. -/
  | entropyError (code : Nat)
  deriving DecidableEq, Repr

deriving instance DecidableEq for Except

/-- One byte. -/
abbrev Byte := Fin 256

/-- The struct `Argon`: the fields are `uint32`, except `Parallelism : uint8`. -/
structure Argon where
  Memory : Nat
  Iterations : Nat
  Parallelism : Nat
  SaltLength : Nat
  KeyLength : Nat
  deriving DecidableEq, Repr

/-- The field values of an `Argon` fit their Go types. -/
def Argon.InRange (a : Argon) : Prop :=
  a.Memory < 2 ^ 32 ∧ a.Iterations < 2 ^ 32 ∧ a.Parallelism < 2 ^ 8 ∧
    a.SaltLength < 2 ^ 32 ∧ a.KeyLength < 2 ^ 32

instance (a : Argon) : Decidable a.InRange := by
  unfold Argon.InRange; infer_instance

/-- The constructor `NewArgonService`. -/
def NewArgonService (memory iterations Parallelism SaltLength KeyLength : Nat) : Argon :=
  ⟨memory, iterations, Parallelism, SaltLength, KeyLength⟩

/-- The constant `argon2.Version`. -/
def argon2Version : Int := 19

/-! ## `strings.Split` -/

/-- `strings.Split(s, sep)` for a one-character separator: the fields between
the separators, one more than there are separators. -/
def Split (s : List Char) (sep : Char) : List (List Char) :=
  match s with
  | [] => [[]]
  | c :: cs =>
    if c = sep then [] :: Split cs sep
    else
      match Split cs sep with
      | [] => [[c]]
      | f :: fs => (c :: f) :: fs

/-! ## The scanner of `fmt` -/

/-- The constant `hugeWid` of `fmt`: a scan reads at most this many runes. -/
def hugeWid : Nat := 1 <<< 30

/-- The constant `intBits`: the size of `int` (64-bit platform). -/
def intBits : Nat := 64

/-- The table `space` of `fmt`, as closed ranges of code points. -/
def space : List (Nat × Nat) :=
  [(0x0009, 0x000d), (0x0020, 0x0020), (0x0085, 0x0085), (0x00a0, 0x00a0),
   (0x1680, 0x1680), (0x2000, 0x200a), (0x2028, 0x2029), (0x202f, 0x202f),
   (0x205f, 0x205f), (0x3000, 0x3000)]

/-- The loop of `isSpace` over the (sorted) table. -/
def isSpaceIn (rx : Nat) : List (Nat × Nat) → Bool
  | [] => false
  | rng :: rest =>
    if rx < rng.1 then false
    else if rx ≤ rng.2 then true
    else isSpaceIn rx rest

/-- The function `isSpace` of `fmt`. -/
def isSpace (r : Char) : Bool :=
  if r.toNat ≥ 1 <<< 16 then false else isSpaceIn r.toNat space

/-- The constant `decimalDigits`. -/
def decimalDigits : List Char := "0123456789".toList

/-- The constant `sign`. -/
def sign : List Char := "+-".toList

/-- The literal part of `advance`: each rune of the format text must be the
next rune of the input.  Running out of input is `io.ErrUnexpectedEOF`
(`mustReadRune`); a different rune makes `advance` return -1, which `doScanf`
reports as "input does not match format". -/
def advance (format : List Char) (input : List Char) : Except GoError (List Char) :=
  match format with
  | [] => .ok input
  | fmtc :: format' =>
    match input with
    | [] => .error .ErrUnexpectedEOF
    | inputc :: input' =>
      if fmtc ≠ inputc then .error (.scanError .inputDoesNotMatchFormat)
      else advance format' input'

/-- The method `peek`: is the next rune one of `ok`? -/
def peek (ok : List Char) (input : List Char) : Bool :=
  match input with
  | [] => false
  | r :: _ => decide (r ∈ ok)

/-- The method `SkipSpace` with `nlIsSpace = false`: skips spaces, fails on a
newline, stops in front of the first rune that is not a space. -/
def SkipSpace (input : List Char) : Except GoError (List Char) :=
  match input with
  | [] => .ok []
  | r :: rest =>
    if r = '\r' ∧ peek ['\n'] rest then SkipSpace rest
    else if r = '\n' then .error (.scanError .unexpectedNewline)
    else if ¬ isSpace r then .ok (r :: rest)
    else SkipSpace rest

/-- The method `notEOF`: panics with `io.EOF` when no input is left. -/
def notEOF (input : List Char) : Except GoError Unit :=
  match input with
  | [] => .error .EOF
  | _ :: _ => .ok ()

/-- The method `accept`: consumes the next rune into the token buffer when it
is one of `ok`.  Returns whether it did, the buffer and the remaining input. -/
def accept (ok : List Char) (buf : List Char) (input : List Char) :
    Bool × List Char × List Char :=
  match input with
  | [] => (false, buf, [])
  | r :: rest => if r ∈ ok then (true, buf ++ [r], rest) else (false, buf, r :: rest)

/-- The loop `for s.accept(digits) {}` of `scanNumber`. -/
def acceptAll (ok : List Char) (buf : List Char) (input : List Char) :
    List Char × List Char :=
  match input with
  | [] => (buf, [])
  | r :: rest => if r ∈ ok then acceptAll ok (buf ++ [r]) rest else (buf, r :: rest)

/-- The method `scanNumber` (with `haveDigits = false`): at least one digit,
then all the digits that follow; the result is the token buffer. -/
def scanNumber (digits : List Char) (buf : List Char) (input : List Char) :
    Except GoError (List Char × List Char) :=
  match notEOF input with
  | .error e => .error e
  | .ok _ =>
    match accept digits buf input with
    | (false, _, _) => .error (.scanError .expectedInteger)
    | (true, buf', input') => .ok (acceptAll digits buf' input')

/-- The value of a decimal digit. -/
def digitVal (c : Char) : Nat := c.toNat - '0'.toNat

/-- The value of a string of decimal digits, most significant first. -/
def decimalValue (tok : List Char) : Nat :=
  tok.foldl (fun n c => 10 * n + digitVal c) 0

/-- `strconv.ParseUint(tok, 10, 64)` on a token of decimal digits: a range
error when the value does not fit in 64 bits. -/
def ParseUint (tok : List Char) : Except GoError Nat :=
  if decimalValue tok ≥ 2 ^ 64 then .error .numErrorRange else .ok (decimalValue tok)

/-- `strconv.ParseInt(tok, 10, 64)` on a token made of an optional sign and
decimal digits. -/
def ParseInt (tok : List Char) : Except GoError Int :=
  match tok with
  | '+' :: ds =>
    if decimalValue ds ≥ 2 ^ 63 then .error .numErrorRange else .ok (decimalValue ds : Int)
  | '-' :: ds =>
    if decimalValue ds > 2 ^ 63 then .error .numErrorRange else .ok (- (decimalValue ds : Int))
  | ds =>
    if decimalValue ds ≥ 2 ^ 63 then .error .numErrorRange else .ok (decimalValue ds : Int)

/-- The method `scanUint` for the verb `%d`: the scanned value and the
remaining input. -/
def scanUint (bitSize : Nat) (input : List Char) : Except GoError (Nat × List Char) :=
  match SkipSpace input with
  | .error e => .error e
  | .ok input1 =>
    match notEOF input1 with
    | .error e => .error e
    | .ok _ =>
      match scanNumber decimalDigits [] input1 with
      | .error e => .error e
      | .ok (tok, input2) =>
        match ParseUint tok with
        | .error e => .error e
        | .ok i =>
          if i % 2 ^ bitSize ≠ i then .error (.scanError .unsignedIntegerOverflow)
          else .ok (i, input2)

/-- The method `scanInt` for the verb `%d`: an optional sign is accepted into
the token before the digits. -/
def scanInt (bitSize : Nat) (input : List Char) : Except GoError (Int × List Char) :=
  match SkipSpace input with
  | .error e => .error e
  | .ok input1 =>
    match notEOF input1 with
    | .error e => .error e
    | .ok _ =>
      match accept sign [] input1 with
      | (_, buf, input2) =>
        match scanNumber decimalDigits buf input2 with
        | .error e => .error e
        | .ok (tok, input3) =>
          match ParseInt tok with
          | .error e => .error e
          | .ok i =>
            if (i + 2 ^ (bitSize - 1)) % 2 ^ bitSize - 2 ^ (bitSize - 1) ≠ i then
              .error (.scanError .integerOverflow)
            else .ok (i, input3)

/-- One `%d` directive of `doScanf` for an unsigned operand: `SkipSpace`,
then `scanOne`. -/
def verbUint (bitSize : Nat) (input : List Char) : Except GoError (Nat × List Char) :=
  match SkipSpace input with
  | .error e => .error e
  | .ok input1 => scanUint bitSize input1

/-- One `%d` directive of `doScanf` for an `int` operand. -/
def verbInt (input : List Char) : Except GoError (Int × List Char) :=
  match SkipSpace input with
  | .error e => .error e
  | .ok input1 => scanInt intBits input1

/-- The call `fmt.Sscanf(str, "v=%d", &version)` with `version : int`.  The
scanner reads at most `hugeWid` runes of `str`; input left after the last
directive is not looked at. -/
def SscanfVersion (str : List Char) : Except GoError Int :=
  match advance "v=".toList (str.take hugeWid) with
  | .error e => .error e
  | .ok input1 =>
    match verbInt input1 with
    | .error e => .error e
    | .ok (version, _) => .ok version

/-- The call `fmt.Sscanf(str, "m=%d,t=%d,p=%d", &a.Memory, &a.Iterations,
&a.Parallelism)` with operands `uint32`, `uint32`, `uint8`. -/
def SscanfParams (str : List Char) : Except GoError (Nat × Nat × Nat) :=
  match advance "m=".toList (str.take hugeWid) with
  | .error e => .error e
  | .ok input1 =>
    match verbUint 32 input1 with
    | .error e => .error e
    | .ok (memory, input2) =>
      match advance ",t=".toList input2 with
      | .error e => .error e
      | .ok input3 =>
        match verbUint 32 input3 with
        | .error e => .error e
        | .ok (iterations, input4) =>
          match advance ",p=".toList input4 with
          | .error e => .error e
          | .ok input5 =>
            match verbUint 8 input5 with
            | .error e => .error e
            | .ok (parallelism, _) => .ok (memory, iterations, parallelism)

/-! ## `fmt.Sprintf` -/

/-- The character of a decimal digit: `byte('0' + d)`. -/
def digitChar (d : Nat) : Char := Char.ofNat ('0'.toNat + d)

/-- The loop of `fmtInteger` for base 10, filling the buffer from the right;
the first argument bounds the number of iterations. -/
def fmtDecimalLoop (fuel : Nat) (u : Nat) (buf : List Char) : List Char :=
  match fuel with
  | 0 => digitChar u :: buf
  | fuel' + 1 =>
    if u ≥ 10 then fmtDecimalLoop fuel' (u / 10) (digitChar (u % 10) :: buf)
    else digitChar u :: buf

/-- The verb `%d` of `fmt.Sprintf` on an unsigned value. -/
def fmtDecimal (u : Nat) : List Char := fmtDecimalLoop u u []

/-- The verb `%d` of `fmt.Sprintf` on a signed value. -/
def fmtInt (i : Int) : List Char :=
  if i < 0 then '-' :: fmtDecimal i.natAbs else fmtDecimal i.natAbs

/-! ## `encoding/base64`: `RawStdEncoding` -/

/-- The alphabet `encodeStd`. -/
def encodeStd : List Char :=
  "ABCDEFGHIJKLMNOPQRSTUVWXYZabcdefghijklmnopqrstuvwxyz0123456789+/".toList

/-- The lookup `enc.encode[v & 0x3F]`. -/
def encodeChar (v : Nat) : Char := encodeStd.getD (v % 64) 'A'

/-- The table `enc.decodeMap`: the index of a character of the alphabet,
`none` (0xff) for any other byte. -/
def decodeMap (c : Char) : Option Nat :=
  if encodeStd.indexOf c < 64 then some (encodeStd.indexOf c) else none

/-- The conversion `byte(v)`. -/
def byteOf (v : Nat) : Byte := ⟨v % 256, Nat.mod_lt _ (by decide)⟩

/-- `RawStdEncoding.EncodeToString`: three bytes give four characters, a
remainder of two bytes gives three and a remainder of one byte gives two; no
padding.  The shifted fields of `val` do not overlap, so `|` is written `+`. -/
def EncodeToString (src : List Byte) : List Char :=
  match src with
  | b0 :: b1 :: b2 :: rest =>
    let val := b0.val * 2 ^ 16 + b1.val * 2 ^ 8 + b2.val
    encodeChar (val / 2 ^ 18) :: encodeChar (val / 2 ^ 12) :: encodeChar (val / 2 ^ 6) ::
      encodeChar val :: EncodeToString rest
  | [b0, b1] =>
    let val := b0.val * 2 ^ 16 + b1.val * 2 ^ 8
    [encodeChar (val / 2 ^ 18), encodeChar (val / 2 ^ 12), encodeChar (val / 2 ^ 6)]
  | [b0] =>
    let val := b0.val * 2 ^ 16
    [encodeChar (val / 2 ^ 18), encodeChar (val / 2 ^ 12)]
  | [] => []

/-- The 24-bit value of a quantum of up to four sextets (`dbuf`, missing
entries are 0). -/
def quantumVal (dbuf : List Nat) : Nat :=
  dbuf.getD 0 0 * 2 ^ 18 + dbuf.getD 1 0 * 2 ^ 12 + dbuf.getD 2 0 * 2 ^ 6 + dbuf.getD 3 0

/-- The end of `decodeQuantum` in strict mode without padding, for a quantum
of `dbuf.length` sextets: four give three bytes; at the end of the input
three give two bytes and two give one byte, provided the unused low bits are
zero; a single sextet is corrupt; none gives nothing. -/
def quantumBytes (dbuf : List Nat) : Except GoError (List Byte) :=
  let val := quantumVal dbuf
  match dbuf.length with
  | 0 => .ok []
  | 1 => .error .corruptInputError
  | 2 =>
    if byteOf (val / 2 ^ 8) ≠ 0 ∨ byteOf val ≠ 0 then .error .corruptInputError
    else .ok [byteOf (val / 2 ^ 16)]
  | 3 =>
    if byteOf val ≠ 0 then .error .corruptInputError
    else .ok [byteOf (val / 2 ^ 16), byteOf (val / 2 ^ 8)]
  | _ => .ok [byteOf (val / 2 ^ 16), byteOf (val / 2 ^ 8), byteOf val]

/-- The loops of `Decode` and `decodeQuantum` for `RawStdEncoding.Strict()`:
`dbuf` holds the sextets of the current quantum and `dst` the bytes decoded
so far.  A character of the alphabet joins the quantum, which is converted
when it has four sextets; `\n` and `\r` are skipped; any other byte (the
padding character included, since the encoding has none) is corrupt. -/
def decodeLoop (src : List Char) (dbuf : List Nat) (dst : List Byte) :
    Except GoError (List Byte) :=
  match src with
  | [] =>
    match quantumBytes dbuf with
    | .error e => .error e
    | .ok bs => .ok (dst ++ bs)
  | c :: rest =>
    match decodeMap c with
    | some out =>
      if dbuf.length = 3 then
        match quantumBytes (dbuf ++ [out]) with
        | .error e => .error e
        | .ok bs => decodeLoop rest [] (dst ++ bs)
      else decodeLoop rest (dbuf ++ [out]) dst
    | none =>
      if c = '\n' ∨ c = '\r' then decodeLoop rest dbuf dst
      else .error .corruptInputError

/-- `RawStdEncoding.Strict().DecodeString`. -/
def DecodeString (s : List Char) : Except GoError (List Byte) :=
  decodeLoop s [] []

/-! ## `crypto/subtle`, `golang.org/x/crypto/argon2`, `crypto/rand` -/

/-- `subtle.ConstantTimeCompare`: 0 when the lengths differ; otherwise the
bytewise xor of the two slices is or-ed together and the result is 1 exactly
when that is 0. -/
def ConstantTimeCompare (x y : List Byte) : Nat :=
  if x.length ≠ y.length then 0
  else
    let v := (List.zip x y).foldl (fun v p => v ||| (p.1.val ^^^ p.2.val)) 0
    if v = 0 then 1 else 0

/-- The result of running a function that may panic. -/
inductive Run (α : Type) where
  | ret (a : α)
  | panic
  deriving DecidableEq, Repr

/-- The Argon2id mixing function, a parameter of the development: byte `i` of
the key derived from the password, the salt, the time, memory and threads
costs and the key length. -/
abbrev Kdf := List Char → List Byte → Nat → Nat → Nat → Nat → Nat → Byte

/-- `argon2.IDKey`: panics when `time < 1` or `threads < 1` (the two guards
of `deriveKey`) and when `keyLen < 1` (`blake2b.New` refuses a digest size of
0 and the nil digest is then written to); otherwise returns a key of `keyLen`
bytes.  Running out of memory is not modelled. -/
def IDKey (kdf : Kdf) (password : List Char) (salt : List Byte)
    (time memory threads keyLen : Nat) : Run (List Byte) :=
  if time < 1 then .panic
  else if threads < 1 then .panic
  else if keyLen < 1 then .panic
  else .ret ((List.range keyLen).map (kdf password salt time memory threads keyLen))

/-- The entropy source behind `rand.Read`: whether reading from it fails, and
the bytes it delivers otherwise. -/
structure Entropy where
  err : Option GoError
  byte : Nat → Byte

/-- `rand.Read(b)` for a buffer `b` of `n` bytes (`io.ReadFull` on the
entropy source): the buffer after the call and the error.  A read of zero
bytes does not touch the source and cannot fail; after a failed read the
content of the buffer is not used by the caller. -/
def randRead (rand : Entropy) (n : Nat) : List Byte × Option GoError :=
  ((List.range n).map rand.byte, if n = 0 then none else rand.err)

/-! ## The package -/

/-- `generateSalt` (`utils.go`): a buffer of `n` bytes filled by `rand.Read`;
the error of the read is returned with a nil slice. -/
def generateSalt (rand : Entropy) (n : Nat) : Option (List Byte) × Option GoError :=
  match randRead rand n with
  | (_, some err) => (none, some err)
  | (salt, none) => (some salt, none)

/-- The `fmt.Sprintf` call of `HashPassword`:
`"$argon2id$v=%d$m=%d,t=%d,p=%d$%s$%s"`. -/
def sprintfHash (version memory iterations parallelism : Nat)
    (b64Salt b64Hash : List Char) : List Char :=
  "$argon2id$v=".toList ++ fmtDecimal version ++ "$m=".toList ++ fmtDecimal memory ++
    ",t=".toList ++ fmtDecimal iterations ++ ",p=".toList ++ fmtDecimal parallelism ++
    "$".toList ++ b64Salt ++ "$".toList ++ b64Hash

/-- Lines 46-59 of `HashPassword`: the encoded hash of a salt and a key under
the given parameters. -/
def encodeHash (memory iterations parallelism : Nat) (salt hash : List Byte) : List Char :=
  sprintfHash argon2Version.toNat memory iterations parallelism
    (EncodeToString salt) (EncodeToString hash)

/-- The method `HashPassword`: the encoded hash and the error. -/
def HashPassword (kdf : Kdf) (rand : Entropy) (a : Argon) (password : List Char) :
    Run (List Char × Option GoError) :=
  match generateSalt rand a.SaltLength with
  | (_, some err) => .ret ([], some err)
  | (none, none) => .panic
  | (some salt, none) =>
    match IDKey kdf password salt a.Iterations a.Memory a.Parallelism a.KeyLength with
    | .panic => .panic
    | .ret hash => .ret (encodeHash a.Memory a.Iterations a.Parallelism salt hash, none)

/-- The four results of `decodeArgonHash`. -/
structure Decoded where
  a : Option Argon
  salt : Option (List Byte)
  hash : Option (List Byte)
  err : Option GoError
  deriving DecidableEq, Repr

/-- The function `decodeArgonHash`. -/
def decodeArgonHash (encodedHash : List Char) : Decoded :=
  let vals := Split encodedHash '$'
  if vals.length ≠ 6 then ⟨none, none, none, some .ErrInvalidHash⟩
  else
    match SscanfVersion (vals.getD 2 []) with
    | .error err => ⟨none, none, none, some err⟩
    | .ok version =>
      if version ≠ argon2Version then ⟨none, none, none, some .ErrIncompatibleVersion⟩
      else
        match SscanfParams (vals.getD 3 []) with
        | .error err => ⟨none, none, none, some err⟩
        | .ok (memory, iterations, parallelism) =>
          match DecodeString (vals.getD 4 []) with
          | .error err => ⟨none, none, none, some err⟩
          | .ok salt =>
            match DecodeString (vals.getD 5 []) with
            | .error err => ⟨none, none, none, some err⟩
            | .ok hash =>
              ⟨some ⟨memory, iterations, parallelism, salt.length % 2 ^ 32,
                  hash.length % 2 ^ 32⟩, some salt, some hash, none⟩

/-- The method `VerifyPassword`: the match value and the error.  The receiver
is overwritten by the decoded parameters before it is read. -/
def VerifyPassword (kdf : Kdf) (_a : Argon) (password : List Char)
    (encodedHash : List Char) : Run (Bool × Option GoError) :=
  match decodeArgonHash encodedHash with
  | ⟨_, _, _, some err⟩ => .ret (false, some err)
  | ⟨some a, some salt, some hash, none⟩ =>
    match IDKey kdf password salt a.Iterations a.Memory a.Parallelism a.KeyLength with
    | .panic => .panic
    | .ret otherHash =>
      if ConstantTimeCompare hash otherHash = 1 then .ret (true, none)
      else .ret (false, none)
  | _ => .panic

/-! ## Auxiliary predicates -/

/-- The input does not go on with a digit. -/
def NoDigitAhead (rest : List Char) : Prop := ∀ c ∈ rest.head?, c ∉ decimalDigits

/-- An error raised by the scanner of `fmt` or by `strconv`: never one of the
two package variables. -/
def GoError.fromScanner (e : GoError) : Bool :=
  match e with
  | .EOF => true
  | .ErrUnexpectedEOF => true
  | .scanError _ => true
  | .numErrorRange => true
  | _ => false

/-- Runes that `SkipSpace` skips without failing. -/
def IsSpaces (sp : List Char) : Prop := ∀ c ∈ sp, isSpace c = true ∧ c ≠ '\n'

/-- A non-empty string of decimal digits. -/
def IsNumber (ds : List Char) : Prop := ds ≠ [] ∧ ∀ c ∈ ds, c ∈ decimalDigits

/-- The parameter field reads `m=<memory>,t=<iterations>,p=<parallelism>`:
each value is a non-empty string of decimal digits, possibly preceded by
spaces, `memory` and `iterations` fit `uint32` and `parallelism` fits `uint8`;
anything but a digit may follow. -/
def ParamsField (f : List Char) (m t p : Nat) : Prop :=
  ∃ sp1 dm sp2 dt sp3 dp rest,
    f = "m=".toList ++ (sp1 ++ (dm ++ (",t=".toList ++ (sp2 ++ (dt ++ (",p=".toList ++
      (sp3 ++ (dp ++ rest)))))))) ∧
    IsSpaces sp1 ∧ IsSpaces sp2 ∧ IsSpaces sp3 ∧
    IsNumber dm ∧ IsNumber dt ∧ IsNumber dp ∧ NoDigitAhead rest ∧
    decimalValue dm = m ∧ decimalValue dt = t ∧ decimalValue dp = p ∧
    m < 2 ^ 32 ∧ t < 2 ^ 32 ∧ p < 2 ^ 8

/-- The sextets of the characters of a field that belong to the alphabet. -/
def sextets (f : List Char) : List Nat := f.filterMap decodeMap

/-- The condition on the sextets of an unpadded strict base64 string: their
number is not 4k+1, and the bits of the last one that do not reach a whole
byte are zero. -/
def StrictSextets (ds : List Nat) : Prop :=
  ds.length % 4 ≠ 1 ∧ (ds.length % 4 = 2 → ds.getLastD 0 % 16 = 0) ∧
    (ds.length % 4 = 3 → ds.getLastD 0 % 4 = 0)

/-- A valid unpadded strict base64 string, CR and LF disregarded: every
other character is in the standard alphabet (so there is no padding
character), and the sextets are those of a whole number of bytes. -/
def ValidRawStd (f : List Char) : Prop :=
  (∀ c ∈ f, c = '\n' ∨ c = '\r' ∨ c ∈ encodeStd) ∧ StrictSextets (sextets f)

/-- All five parameters of a service are positive. -/
def Argon.Positive (a : Argon) : Prop :=
  0 < a.Memory ∧ 0 < a.Iterations ∧ 0 < a.Parallelism ∧ 0 < a.SaltLength ∧ 0 < a.KeyLength

instance (a : Argon) : Decidable a.Positive := by
  unfold Argon.Positive; infer_instance

/-- The key with bit `k` of its byte `i` flipped. -/
def flipBit (key : List Byte) (i k : Nat) : List Byte :=
  match key, i with
  | [], _ => []
  | b :: bs, 0 => byteOf (b.val ^^^ 2 ^ k) :: bs
  | b :: bs, i' + 1 => b :: flipBit bs i' k

/-- A sample mixing function: byte `i` of every key is `i + len(password)`. -/
def sampleKdf : Kdf := fun password _ _ _ _ _ i => byteOf (i + password.length)

/-- A sample entropy source that succeeds and delivers the bytes 7, 8, 9, ... -/
def sampleEntropy : Entropy := ⟨none, fun i => byteOf (i + 7)⟩

/-- A sample service. -/
def sampleService : Argon := NewArgonService 65536 3 2 4 5

/-- A sample entropy source whose read fails. -/
def failingEntropy : Entropy := ⟨some (.entropyError 5), fun _ => 0⟩

/-- A sample service with a salt length of 0. -/
def saltlessService : Argon := NewArgonService 65536 3 2 0 5

/-! ## Lemmas -/

/-! ### `Split` -/

theorem Split_ne_nil (s : List Char) (sep : Char) : Split s sep ≠ [] := by
  induction s with
  | nil => simp [Split]
  | cons c cs ih =>
    unfold Split
    split
    · simp
    · split <;> simp

theorem Split_of_not_mem (f : List Char) (sep : Char) (h : sep ∉ f) : Split f sep = [f] := by
  induction f with
  | nil => simp [Split]
  | cons c cs ih =>
    have hc : c ≠ sep := fun e => h (by simp [e])
    have hcs : sep ∉ cs := fun e => h (by simp [e])
    rw [Split, if_neg hc, ih hcs]

theorem Split_append (f rest : List Char) (sep : Char) (h : sep ∉ f) :
    Split (f ++ sep :: rest) sep = f :: Split rest sep := by
  induction f with
  | nil => simp [Split]
  | cons c cs ih =>
    have hc : c ≠ sep := fun e => h (by simp [e])
    have hcs : sep ∉ cs := fun e => h (by simp [e])
    rw [List.cons_append, Split, if_neg hc, ih hcs]

theorem Split_length (s : List Char) (sep : Char) :
    (Split s sep).length = s.count sep + 1 := by
  induction s with
  | nil => simp [Split]
  | cons c cs ih =>
    unfold Split
    by_cases hc : c = sep
    · subst hc; simp [ih]
    · rw [if_neg hc]
      have : (c == sep) = false := by simpa using hc
      rw [List.count_cons, this]
      split
      · rename_i h; exact absurd h (Split_ne_nil _ _)
      · rename_i f fs h; rw [h] at ih; simpa using ih

/-! ### Decimal formatting -/

theorem digitVal_digitChar (d : Nat) (h : d < 10) : digitVal (digitChar d) = d := by
  interval_cases d <;> decide

theorem digitChar_mem (d : Nat) (h : d < 10) : digitChar d ∈ decimalDigits := by
  interval_cases d <;> decide

theorem decimalValue_append (xs ys : List Char) :
    decimalValue (xs ++ ys) = ys.foldl (fun n c => 10 * n + digitVal c) (decimalValue xs) := by
  simp [decimalValue, List.foldl_append]

theorem foldl_digits (ys : List Char) (a : Nat) :
    ys.foldl (fun n c => 10 * n + digitVal c) a = a * 10 ^ ys.length + decimalValue ys := by
  induction ys generalizing a with
  | nil => simp [decimalValue]
  | cons y ys ih =>
    simp only [List.foldl_cons, decimalValue, List.length_cons]
    rw [ih, ih (10 * 0 + digitVal y)]
    ring

theorem fmtDecimalLoop_spec (fuel : Nat) : ∀ (u : Nat) (buf : List Char), u ≤ fuel →
    ∃ ds : List Char, fmtDecimalLoop fuel u buf = ds ++ buf ∧ ds ≠ [] ∧
      (∀ c ∈ ds, c ∈ decimalDigits) ∧ decimalValue ds = u ∧
      (∀ k, u < 10 ^ (k + 1) → ds.length ≤ k + 1) := by
  induction fuel with
  | zero =>
    intro u buf hu
    have : u = 0 := by omega
    subst this
    refine ⟨[digitChar 0], by simp [fmtDecimalLoop], by simp, ?_, by decide, ?_⟩
    · intro c hc; simp at hc; subst hc; decide
    · intro k _; simp
  | succ fuel ih =>
    intro u buf hu
    unfold fmtDecimalLoop
    by_cases h10 : u ≥ 10
    · rw [if_pos h10]
      obtain ⟨ds, h1, h2, h3, h4, h5⟩ := ih (u / 10) (digitChar (u % 10) :: buf) (by omega)
      refine ⟨ds ++ [digitChar (u % 10)], by simp [h1], by simp, ?_, ?_, ?_⟩
      · intro c hc
        rcases List.mem_append.1 hc with hc | hc
        · exact h3 c hc
        · simp at hc; subst hc; exact digitChar_mem _ (Nat.mod_lt _ (by decide))
      · rw [decimalValue_append, h4]
        simp only [List.foldl_cons, List.foldl_nil]
        rw [digitVal_digitChar _ (Nat.mod_lt _ (by decide))]
        omega
      · intro k hk
        cases k with
        | zero => omega
        | succ k =>
          have := h5 k (by rw [pow_succ] at hk; omega)
          simp; omega
    · rw [if_neg h10]
      refine ⟨[digitChar u], by simp, by simp, ?_, ?_, ?_⟩
      · intro c hc; simp at hc; subst hc; exact digitChar_mem _ (by omega)
      · simp [decimalValue]; exact digitVal_digitChar _ (by omega)
      · intro k _; simp

theorem fmtDecimal_ne_nil (u : Nat) : fmtDecimal u ≠ [] := by
  obtain ⟨ds, h1, h2, -⟩ := fmtDecimalLoop_spec u u [] le_rfl
  simp [fmtDecimal, h1, h2]

theorem fmtDecimal_digits (u : Nat) : ∀ c ∈ fmtDecimal u, c ∈ decimalDigits := by
  obtain ⟨ds, h1, _, h3, -⟩ := fmtDecimalLoop_spec u u [] le_rfl
  simpa [fmtDecimal, h1] using h3

theorem decimalValue_fmtDecimal (u : Nat) : decimalValue (fmtDecimal u) = u := by
  obtain ⟨ds, h1, _, _, h4, -⟩ := fmtDecimalLoop_spec u u [] le_rfl
  simpa [fmtDecimal, h1] using h4

theorem fmtDecimal_length (u k : Nat) (h : u < 10 ^ (k + 1)) : (fmtDecimal u).length ≤ k + 1 := by
  obtain ⟨ds, h1, _, _, _, h5⟩ := fmtDecimalLoop_spec u u [] le_rfl
  simpa [fmtDecimal, h1] using h5 k h
theorem advance_append (lit rest : List Char) : advance lit (lit ++ rest) = .ok rest := by
  induction lit with
  | nil => simp [advance]
  | cons c cs ih => simp [advance, ih]

theorem SkipSpace_digit (c : Char) (rest : List Char) (h : c ∈ decimalDigits) :
    SkipSpace (c :: rest) = .ok (c :: rest) := by
  have h1 : c ≠ '\r' := by rintro rfl; revert h; decide
  have h2 : c ≠ '\n' := by rintro rfl; revert h; decide
  have h3 : isSpace c = false := by
    simp only [decimalDigits, String.toList, List.mem_cons, List.mem_singleton] at h
    rcases h with rfl | rfl | rfl | rfl | rfl | rfl | rfl | rfl | rfl | rfl | h
    all_goals first | decide | simp at h
  simp [SkipSpace, h1, h2, h3]


theorem acceptAll_append (ok ds rest buf : List Char) (hds : ∀ c ∈ ds, c ∈ ok)
    (hrest : ∀ c ∈ rest.head?, c ∉ ok) : acceptAll ok buf (ds ++ rest) = (buf ++ ds, rest) := by
  induction ds generalizing buf with
  | nil =>
    cases rest with
    | nil => simp [acceptAll]
    | cons r rs =>
      have : r ∉ ok := hrest r (by simp)
      simp [acceptAll, this]
  | cons d ds ih =>
    have hd : d ∈ ok := hds d (by simp)
    have := ih (buf ++ [d]) (fun c hc => hds c (by simp [hc]))
    simp [acceptAll, hd, this]

theorem scanNumber_append (ok ds rest buf : List Char) (hne : ds ≠ [])
    (hds : ∀ c ∈ ds, c ∈ ok) (hrest : ∀ c ∈ rest.head?, c ∉ ok) :
    scanNumber ok buf (ds ++ rest) = .ok (buf ++ ds, rest) := by
  cases ds with
  | nil => exact absurd rfl hne
  | cons d ds =>
    have hd : d ∈ ok := hds d (by simp)
    have := acceptAll_append ok ds rest (buf ++ [d]) (fun c hc => hds c (by simp [hc])) hrest
    simp [scanNumber, notEOF, accept, hd, this]

theorem verbUint_append (bitSize : Nat) (hb : bitSize ≤ 64) (ds rest : List Char) (hne : ds ≠ [])
    (hds : ∀ c ∈ ds, c ∈ decimalDigits) (hrest : NoDigitAhead rest)
    (hv : decimalValue ds < 2 ^ bitSize) :
    verbUint bitSize (ds ++ rest) = .ok (decimalValue ds, rest) := by
  cases ds with
  | nil => exact absurd rfl hne
  | cons d ds =>
    have hd : d ∈ decimalDigits := hds d (by simp)
    have hss := SkipSpace_digit d (ds ++ rest) hd
    have hsn := scanNumber_append decimalDigits (d :: ds) rest [] (by simp) hds hrest
    have h64 : decimalValue (d :: ds) < 2 ^ 64 :=
      lt_of_lt_of_le hv (Nat.pow_le_pow_right (by decide) hb)
    have hmod : decimalValue (d :: ds) % 2 ^ bitSize = decimalValue (d :: ds) := Nat.mod_eq_of_lt hv
    simp only [List.cons_append] at hsn ⊢
    simp only [verbUint, scanUint, hss, notEOF, hsn, ParseUint, List.nil_append]
    rw [if_neg (by omega)]
    simp [hmod]

theorem verbUint_fmtDecimal (bitSize : Nat) (hb : bitSize ≤ 64) (u : Nat) (rest : List Char)
    (hrest : NoDigitAhead rest) (hu : u < 2 ^ bitSize) :
    verbUint bitSize (fmtDecimal u ++ rest) = .ok (u, rest) := by
  have := verbUint_append bitSize hb (fmtDecimal u) rest (fmtDecimal_ne_nil u)
    (fmtDecimal_digits u) hrest (by rw [decimalValue_fmtDecimal]; exact hu)
  rwa [decimalValue_fmtDecimal] at this

/-! ### Base64 -/

theorem decodeMap_encodeChar (v : Nat) : decodeMap (encodeChar v) = some (v % 64) := by
  unfold encodeChar
  have h : v % 64 < 64 := Nat.mod_lt _ (by decide)
  generalize v % 64 = k at h
  interval_cases k <;> decide

theorem encodeChar_mem (v : Nat) : encodeChar v ∈ encodeStd := by
  unfold encodeChar
  have h : v % 64 < 64 := Nat.mod_lt _ (by decide)
  generalize v % 64 = k at h
  interval_cases k <;> decide

theorem encodeChar_not_nl (v : Nat) : encodeChar v ≠ '\n' ∧ encodeChar v ≠ '\r' := by
  have := encodeChar_mem v
  constructor <;> (intro h; rw [h] at this; revert this; decide)

theorem EncodeToString_mem (src : List Byte) : ∀ c ∈ EncodeToString src, c ∈ encodeStd := by
  induction src using EncodeToString.induct with
  | case1 b0 b1 b2 rest ih =>
    intro c hc
    simp only [EncodeToString, List.mem_cons] at hc
    rcases hc with rfl | rfl | rfl | rfl | hc
    · exact encodeChar_mem _
    · exact encodeChar_mem _
    · exact encodeChar_mem _
    · exact encodeChar_mem _
    · exact ih c hc
  | case2 b0 b1 =>
    intro c hc
    simp only [EncodeToString, List.mem_cons, List.mem_singleton, List.not_mem_nil, or_false] at hc
    rcases hc with rfl | rfl | rfl <;> exact encodeChar_mem _
  | case3 b0 =>
    intro c hc
    simp only [EncodeToString, List.mem_cons, List.mem_singleton, List.not_mem_nil, or_false] at hc
    rcases hc with rfl | rfl <;> exact encodeChar_mem _
  | case4 => intro c hc; simp [EncodeToString] at hc

theorem decodeLoop_step (c : Char) (rest : List Char) (dbuf : List Nat) (dst : List Byte)
    (v : Nat) (hc : decodeMap c = some v) (hlen : dbuf.length ≠ 3) :
    decodeLoop (c :: rest) dbuf dst = decodeLoop rest (dbuf ++ [v]) dst := by
  rw [decodeLoop, hc]; simp [hlen]

theorem byteOf_val (b : Byte) : byteOf b.val = b := by
  apply Fin.ext; simp [byteOf, Nat.mod_eq_of_lt b.isLt]

theorem decodeLoop_EncodeToString (src : List Byte) :
    ∀ dst, decodeLoop (EncodeToString src) [] dst = .ok (dst ++ src) := by
  induction src using EncodeToString.induct with
  | case1 b0 b1 b2 rest ih =>
    intro dst
    have h0 := b0.isLt
    have h1 := b1.isLt
    have h2 := b2.isLt
    simp only [EncodeToString]
    rw [decodeLoop_step _ _ _ _ _ (decodeMap_encodeChar _) (by simp),
      decodeLoop_step _ _ _ _ _ (decodeMap_encodeChar _) (by simp),
      decodeLoop_step _ _ _ _ _ (decodeMap_encodeChar _) (by simp)]
    rw [decodeLoop, decodeMap_encodeChar]
    simp only [List.nil_append, List.cons_append, List.length_cons, List.length_nil,
      quantumBytes, quantumVal, List.getD_cons_zero, List.getD_cons_succ]
    have e0 : byteOf (((b0.val * 2 ^ 16 + b1.val * 2 ^ 8 + b2.val) / 2 ^ 18 % 64 * 2 ^ 18
        + (b0.val * 2 ^ 16 + b1.val * 2 ^ 8 + b2.val) / 2 ^ 12 % 64 * 2 ^ 12
        + (b0.val * 2 ^ 16 + b1.val * 2 ^ 8 + b2.val) / 2 ^ 6 % 64 * 2 ^ 6
        + (b0.val * 2 ^ 16 + b1.val * 2 ^ 8 + b2.val) % 64) / 2 ^ 16) = b0 := by
      apply Fin.ext; simp only [byteOf]; omega
    have e1 : byteOf (((b0.val * 2 ^ 16 + b1.val * 2 ^ 8 + b2.val) / 2 ^ 18 % 64 * 2 ^ 18
        + (b0.val * 2 ^ 16 + b1.val * 2 ^ 8 + b2.val) / 2 ^ 12 % 64 * 2 ^ 12
        + (b0.val * 2 ^ 16 + b1.val * 2 ^ 8 + b2.val) / 2 ^ 6 % 64 * 2 ^ 6
        + (b0.val * 2 ^ 16 + b1.val * 2 ^ 8 + b2.val) % 64) / 2 ^ 8) = b1 := by
      apply Fin.ext; simp only [byteOf]; omega
    have e2 : byteOf (((b0.val * 2 ^ 16 + b1.val * 2 ^ 8 + b2.val) / 2 ^ 18 % 64 * 2 ^ 18
        + (b0.val * 2 ^ 16 + b1.val * 2 ^ 8 + b2.val) / 2 ^ 12 % 64 * 2 ^ 12
        + (b0.val * 2 ^ 16 + b1.val * 2 ^ 8 + b2.val) / 2 ^ 6 % 64 * 2 ^ 6
        + (b0.val * 2 ^ 16 + b1.val * 2 ^ 8 + b2.val) % 64)) = b2 := by
      apply Fin.ext; simp only [byteOf]; omega
    simp only [e0, e1, e2, if_true, ih]
    simp
  | case2 b0 b1 =>
    intro dst
    have h0 := b0.isLt
    have h1 := b1.isLt
    simp only [EncodeToString]
    rw [decodeLoop_step _ _ _ _ _ (decodeMap_encodeChar _) (by simp),
      decodeLoop_step _ _ _ _ _ (decodeMap_encodeChar _) (by simp),
      decodeLoop_step _ _ _ _ _ (decodeMap_encodeChar _) (by simp)]
    simp only [decodeLoop, List.nil_append, List.cons_append, List.length_cons, List.length_nil,
      quantumBytes, quantumVal, List.getD_cons_zero, List.getD_cons_succ, List.getD_nil]
    have e0 : byteOf (((b0.val * 2 ^ 16 + b1.val * 2 ^ 8) / 2 ^ 18 % 64 * 2 ^ 18
        + (b0.val * 2 ^ 16 + b1.val * 2 ^ 8) / 2 ^ 12 % 64 * 2 ^ 12
        + (b0.val * 2 ^ 16 + b1.val * 2 ^ 8) / 2 ^ 6 % 64 * 2 ^ 6 + 0) / 2 ^ 16) = b0 := by
      apply Fin.ext; simp only [byteOf]; omega
    have e1 : byteOf (((b0.val * 2 ^ 16 + b1.val * 2 ^ 8) / 2 ^ 18 % 64 * 2 ^ 18
        + (b0.val * 2 ^ 16 + b1.val * 2 ^ 8) / 2 ^ 12 % 64 * 2 ^ 12
        + (b0.val * 2 ^ 16 + b1.val * 2 ^ 8) / 2 ^ 6 % 64 * 2 ^ 6 + 0) / 2 ^ 8) = b1 := by
      apply Fin.ext; simp only [byteOf]; omega
    have e2 : byteOf (((b0.val * 2 ^ 16 + b1.val * 2 ^ 8) / 2 ^ 18 % 64 * 2 ^ 18
        + (b0.val * 2 ^ 16 + b1.val * 2 ^ 8) / 2 ^ 12 % 64 * 2 ^ 12
        + (b0.val * 2 ^ 16 + b1.val * 2 ^ 8) / 2 ^ 6 % 64 * 2 ^ 6 + 0)) = 0 := by
      apply Fin.ext; simp only [byteOf]; show _ % 256 = 0; omega
    simp only [e0, e1, e2]
    simp
  | case3 b0 =>
    intro dst
    have h0 := b0.isLt
    simp only [EncodeToString]
    rw [decodeLoop_step _ _ _ _ _ (decodeMap_encodeChar _) (by simp),
      decodeLoop_step _ _ _ _ _ (decodeMap_encodeChar _) (by simp)]
    simp only [decodeLoop, List.nil_append, List.cons_append, List.length_cons, List.length_nil,
      quantumBytes, quantumVal, List.getD_cons_zero, List.getD_cons_succ, List.getD_nil]
    have e0 : byteOf (((b0.val * 2 ^ 16) / 2 ^ 18 % 64 * 2 ^ 18
        + (b0.val * 2 ^ 16) / 2 ^ 12 % 64 * 2 ^ 12 + 0 * 2 ^ 6 + 0) / 2 ^ 16) = b0 := by
      apply Fin.ext; simp only [byteOf]; omega
    have e1 : byteOf (((b0.val * 2 ^ 16) / 2 ^ 18 % 64 * 2 ^ 18
        + (b0.val * 2 ^ 16) / 2 ^ 12 % 64 * 2 ^ 12 + 0 * 2 ^ 6 + 0) / 2 ^ 8) = 0 := by
      apply Fin.ext; simp only [byteOf]; show _ % 256 = 0; omega
    have e2 : byteOf (((b0.val * 2 ^ 16) / 2 ^ 18 % 64 * 2 ^ 18
        + (b0.val * 2 ^ 16) / 2 ^ 12 % 64 * 2 ^ 12 + 0 * 2 ^ 6 + 0)) = 0 := by
      apply Fin.ext; simp only [byteOf]; show _ % 256 = 0; omega
    simp only [e0, e1, e2]
    simp
  | case4 => intro dst; simp [EncodeToString, decodeLoop, quantumBytes]

theorem DecodeString_EncodeToString (src : List Byte) :
    DecodeString (EncodeToString src) = .ok src := by
  simpa [DecodeString] using decodeLoop_EncodeToString src []

/-! ### Decoding an encoded hash -/

theorem hugeWid_eq : hugeWid = 1073741824 := by decide

theorem take_hugeWid (s : List Char) (h : s.length ≤ 1073741824) : s.take hugeWid = s := by
  rw [hugeWid_eq]; exact List.take_of_length_le h

theorem NoDigitAhead_nil : NoDigitAhead [] := by simp [NoDigitAhead]

theorem NoDigitAhead_cons (c : Char) (rest : List Char) (h : c ∉ decimalDigits) :
    NoDigitAhead (c :: rest) := by
  intro d hd; simp at hd; subst hd; exact h

theorem SscanfParams_fmt (m t p : Nat) (hm : m < 2 ^ 32) (ht : t < 2 ^ 32) (hp : p < 2 ^ 8) :
    SscanfParams ("m=".toList ++ fmtDecimal m ++ ",t=".toList ++ fmtDecimal t ++
      ",p=".toList ++ fmtDecimal p) = .ok (m, t, p) := by
  have lm := fmtDecimal_length m 9 (by omega)
  have lt := fmtDecimal_length t 9 (by omega)
  have lp := fmtDecimal_length p 2 (by omega)
  have h1 := verbUint_fmtDecimal 32 (by decide) m
    (",t=".toList ++ (fmtDecimal t ++ (",p=".toList ++ fmtDecimal p)))
    (NoDigitAhead_cons ',' _ (by decide)) hm
  have h2 := verbUint_fmtDecimal 32 (by decide) t (",p=".toList ++ fmtDecimal p)
    (NoDigitAhead_cons ',' _ (by decide)) ht
  have h3 := verbUint_fmtDecimal 8 (by decide) p [] NoDigitAhead_nil hp
  rw [List.append_nil] at h3
  unfold SscanfParams
  rw [take_hugeWid _ (by simp; omega)]
  simp only [List.append_assoc]
  rw [advance_append]
  simp only []
  rw [h1]
  simp only []
  rw [advance_append]
  simp only []
  rw [h2]
  simp only []
  rw [advance_append]
  simp only []
  rw [h3]

theorem not_mem_of_forall_mem {α : Type} (x : α) (l s : List α) (h : ∀ c ∈ l, c ∈ s)
    (hx : x ∉ s) : x ∉ l := fun hl => hx (h x hl)

theorem decodeArgonHash_encodeHash (m t p : Nat) (salt hash : List Byte)
    (hm : m < 2 ^ 32) (ht : t < 2 ^ 32) (hp : p < 2 ^ 8) :
    decodeArgonHash (encodeHash m t p salt hash) =
      ⟨some ⟨m, t, p, salt.length % 2 ^ 32, hash.length % 2 ^ 32⟩, some salt, some hash, none⟩ := by
  have hsplit : Split (encodeHash m t p salt hash) '$' =
      [[], "argon2id".toList, "v=19".toList,
        "m=".toList ++ fmtDecimal m ++ ",t=".toList ++ fmtDecimal t ++ ",p=".toList ++ fmtDecimal p,
        EncodeToString salt, EncodeToString hash] := by
    have hd : '$' ∉ decimalDigits := by decide
    have he : '$' ∉ encodeStd := by decide
    have e : encodeHash m t p salt hash =
        [] ++ '$' :: ("argon2id".toList ++ '$' :: ("v=19".toList ++ '$' ::
          (("m=".toList ++ fmtDecimal m ++ ",t=".toList ++ fmtDecimal t ++ ",p=".toList ++
            fmtDecimal p) ++ '$' :: (EncodeToString salt ++ '$' :: EncodeToString hash)))) := by
      have h19 : fmtDecimal argon2Version.toNat = "19".toList := by decide
      simp [encodeHash, sprintfHash, h19]
    have hdm := not_mem_of_forall_mem '$' _ _ (fmtDecimal_digits m) hd
    have hdt := not_mem_of_forall_mem '$' _ _ (fmtDecimal_digits t) hd
    have hdp := not_mem_of_forall_mem '$' _ _ (fmtDecimal_digits p) hd
    have hes := not_mem_of_forall_mem '$' _ _ (EncodeToString_mem salt) he
    have heh := not_mem_of_forall_mem '$' _ _ (EncodeToString_mem hash) he
    rw [e, Split_append _ _ _ (by simp), Split_append _ _ _ (by decide),
      Split_append _ _ _ (by decide), Split_append _ _ _ (by simp [hdm, hdt, hdp]),
      Split_append _ _ _ hes, Split_of_not_mem _ _ heh]
  have hv : SscanfVersion "v=19".toList = .ok 19 := by decide
  unfold decodeArgonHash
  simp only [hsplit, List.length_cons, List.length_nil, List.getD_cons_zero, List.getD_cons_succ]
  rw [hv]
  simp only []
  rw [SscanfParams_fmt m t p hm ht hp]
  simp [argon2Version, DecodeString_EncodeToString]

/-! ### Scanning the version field -/

theorem sign_not_digit (c : Char) (h : c ∈ decimalDigits) : c ∉ sign := by
  simp only [decimalDigits, String.toList, List.mem_cons, List.mem_singleton] at h
  rcases h with rfl | rfl | rfl | rfl | rfl | rfl | rfl | rfl | rfl | rfl | h
  all_goals first | decide | simp at h

theorem ParseInt_digits (d : Char) (ds : List Char) (hd : d ∈ decimalDigits)
    (hv : decimalValue (d :: ds) < 2 ^ 63) :
    ParseInt (d :: ds) = .ok (decimalValue (d :: ds) : Int) := by
  have hs := sign_not_digit d hd
  have h1 : d ≠ '+' := by rintro rfl; exact hs (by decide)
  have h2 : d ≠ '-' := by rintro rfl; exact hs (by decide)
  unfold ParseInt
  split
  · rename_i heq; simp only [List.cons.injEq] at heq; exact absurd heq.1 h1
  · rename_i heq; simp only [List.cons.injEq] at heq; exact absurd heq.1 h2
  · rw [if_neg (by omega)]

theorem verbInt_fmtInt (n : Int) (hlo : -2 ^ 63 ≤ n) (hhi : n < 2 ^ 63) :
    verbInt (fmtInt n) = .ok (n, []) := by
  unfold fmtInt
  by_cases hneg : n < 0
  · rw [if_pos hneg]
    have hss : SkipSpace ('-' :: fmtDecimal n.natAbs) = .ok ('-' :: fmtDecimal n.natAbs) := by
      have h3 : isSpace '-' = false := by decide
      simp [SkipSpace, h3]
    have hacc : accept sign [] ('-' :: fmtDecimal n.natAbs) = (true, ['-'], fmtDecimal n.natAbs) := by
      simp [accept, sign]
    have hsn := scanNumber_append decimalDigits (fmtDecimal n.natAbs) [] ['-']
      (fmtDecimal_ne_nil _) (fmtDecimal_digits _) (by simp)
    rw [List.append_nil] at hsn
    have hval : (- (n.natAbs : Int)) = n := by omega
    have hle : ¬ n.natAbs > 2 ^ 63 := by omega
    simp only [verbInt, scanInt, hss, notEOF, hacc, hsn, ParseInt, List.singleton_append,
      decimalValue_fmtDecimal, if_neg hle, hval, intBits]
    rw [if_neg]
    simp only [ne_eq, not_not]
    omega
  · rw [if_neg hneg]
    obtain ⟨d, ds, hds⟩ := List.exists_cons_of_ne_nil (fmtDecimal_ne_nil n.natAbs)
    have hd : d ∈ decimalDigits := fmtDecimal_digits n.natAbs d (by rw [hds]; simp)
    have hdall : ∀ c ∈ d :: ds, c ∈ decimalDigits := by rw [← hds]; exact fmtDecimal_digits _
    have hv : decimalValue (d :: ds) = n.natAbs := by rw [← hds]; exact decimalValue_fmtDecimal _
    rw [hds]
    have hss := SkipSpace_digit d ds hd
    have hacc : accept sign [] (d :: ds) = (false, [], d :: ds) := by
      simp [accept, sign_not_digit d hd]
    have hsn := scanNumber_append decimalDigits (d :: ds) [] [] (by simp) hdall (by simp)
    rw [List.append_nil, List.nil_append] at hsn
    have hpi := ParseInt_digits d ds hd (by rw [hv]; omega)
    have hval : ((decimalValue (d :: ds) : Nat) : Int) = n := by rw [hv]; omega
    simp only [verbInt, scanInt, hss, notEOF, hacc, hsn, hpi, hval, intBits]
    rw [if_neg]
    simp only [ne_eq, not_not]
    omega

theorem fmtInt_length (n : Int) (hlo : -2 ^ 63 ≤ n) (hhi : n < 2 ^ 63) :
    (fmtInt n).length ≤ 20 := by
  have := fmtDecimal_length n.natAbs 18 (by omega)
  unfold fmtInt
  split <;> simp <;> omega

theorem SscanfVersion_fmtInt (n : Int) (hlo : -2 ^ 63 ≤ n) (hhi : n < 2 ^ 63) :
    SscanfVersion ("v=".toList ++ fmtInt n) = .ok n := by
  have hl := fmtInt_length n hlo hhi
  unfold SscanfVersion
  rw [take_hugeWid _ (by simp; omega), advance_append]
  simp only []
  rw [verbInt_fmtInt n hlo hhi]

/-! ### Scanning the parameter field: what is accepted -/

theorem advance_inv (lit input rest : List Char) (h : advance lit input = .ok rest) :
    input = lit ++ rest := by
  induction lit generalizing input with
  | nil => simp [advance] at h; simp [h]
  | cons c cs ih =>
    cases input with
    | nil => simp [advance] at h
    | cons d ds =>
      by_cases hcd : c = d
      · subst hcd
        simp only [advance, ne_eq, not_true_eq_false, if_false] at h
        rw [ih ds h]; rfl
      · simp [advance, hcd] at h

theorem advance_error (lit input : List Char) (e : GoError) (h : advance lit input = .error e) :
    e.fromScanner = true := by
  induction lit generalizing input with
  | nil => simp [advance] at h
  | cons c cs ih =>
    cases input with
    | nil => simp [advance] at h; subst h; rfl
    | cons d ds =>
      by_cases hcd : c = d
      · subst hcd
        simp only [advance, ne_eq, not_true_eq_false, if_false] at h
        exact ih ds h
      · simp [advance, hcd] at h; subst h; rfl

theorem SkipSpace_cons (r : Char) (rs : List Char) :
    SkipSpace (r :: rs) =
      if r = '\n' then .error (.scanError .unexpectedNewline)
      else if isSpace r = true then SkipSpace rs else .ok (r :: rs) := by
  rw [SkipSpace]
  by_cases hnl : r = '\n'
  · subst hnl
    have : ¬ ('\n' = '\r' ∧ peek ['\n'] rs = true) := fun h => absurd h.1 (by decide)
    rw [if_neg this, if_pos rfl, if_pos rfl]
  · by_cases hsp : isSpace r = true
    · rw [if_neg hnl, if_pos hsp]
      split_ifs <;> rfl
    · have hcr : r ≠ '\r' := by rintro rfl; exact hsp (by decide)
      rw [if_neg hnl, if_neg hsp, if_neg (fun h => hcr h.1), if_neg hnl, if_pos hsp]

theorem SkipSpace_inv (input rest : List Char) (h : SkipSpace input = .ok rest) :
    ∃ sp, input = sp ++ rest ∧ IsSpaces sp := by
  induction input with
  | nil => simp [SkipSpace] at h; exact ⟨[], by simp [h], by simp [IsSpaces]⟩
  | cons r rs ih =>
    rw [SkipSpace_cons] at h
    by_cases hnl : r = '\n'
    · rw [if_pos hnl] at h; simp at h
    · rw [if_neg hnl] at h
      by_cases hsp : isSpace r = true
      · rw [if_pos hsp] at h
        obtain ⟨sp, h1, h2⟩ := ih h
        refine ⟨r :: sp, by simp [h1], ?_⟩
        intro c hc
        rcases List.mem_cons.1 hc with rfl | hc
        · exact ⟨hsp, hnl⟩
        · exact h2 c hc
      · rw [if_neg hsp] at h
        simp only [Except.ok.injEq] at h
        exact ⟨[], by simp [h], by simp [IsSpaces]⟩

theorem SkipSpace_error (input : List Char) (e : GoError) (h : SkipSpace input = .error e) :
    e.fromScanner = true := by
  induction input with
  | nil => simp [SkipSpace] at h
  | cons r rs ih =>
    rw [SkipSpace_cons] at h
    by_cases hnl : r = '\n'
    · rw [if_pos hnl] at h; simp at h; subst h; rfl
    · rw [if_neg hnl] at h
      by_cases hsp : isSpace r = true
      · rw [if_pos hsp] at h; exact ih h
      · rw [if_neg hsp] at h; simp at h

theorem ParseUint_inv (tok : List Char) (i : Nat) (h : ParseUint tok = .ok i) :
    i = decimalValue tok ∧ i < 2 ^ 64 := by
  unfold ParseUint at h
  split_ifs at h with h64
  simp only [Except.ok.injEq] at h
  exact ⟨h.symm, by omega⟩

theorem ParseUint_error (tok : List Char) (e : GoError) (h : ParseUint tok = .error e) :
    e.fromScanner = true := by
  unfold ParseUint at h
  split_ifs at h with h64
  simp only [Except.error.injEq] at h
  subst h; rfl

theorem acceptAll_inv (ok : List Char) (input : List Char) :
    ∀ buf tok rest, acceptAll ok buf input = (tok, rest) →
      ∃ ds, tok = buf ++ ds ∧ input = ds ++ rest ∧ (∀ c ∈ ds, c ∈ ok) ∧
        (∀ c ∈ rest.head?, c ∉ ok) := by
  induction input with
  | nil =>
    intro buf tok rest h
    simp [acceptAll] at h
    exact ⟨[], by simp [h.1], by simp [h.2], by simp, by simp [h.2]⟩
  | cons r rs ih =>
    intro buf tok rest h
    unfold acceptAll at h
    by_cases hr : r ∈ ok
    · rw [if_pos hr] at h
      obtain ⟨ds, h1, h2, h3, h4⟩ := ih _ _ _ h
      refine ⟨r :: ds, by simp [h1], by simp [h2], ?_, h4⟩
      intro c hc
      rcases List.mem_cons.1 hc with rfl | hc
      · exact hr
      · exact h3 c hc
    · rw [if_neg hr] at h
      simp only [Prod.mk.injEq] at h
      refine ⟨[], by simp [h.1], by simp [h.2], by simp, ?_⟩
      rw [← h.2]; intro c hc; simp at hc; subst hc; exact hr

theorem scanNumber_inv (ok buf input tok rest : List Char)
    (h : scanNumber ok buf input = .ok (tok, rest)) :
    ∃ ds, tok = buf ++ ds ∧ input = ds ++ rest ∧ ds ≠ [] ∧ (∀ c ∈ ds, c ∈ ok) ∧
      (∀ c ∈ rest.head?, c ∉ ok) := by
  cases input with
  | nil => simp [scanNumber, notEOF] at h
  | cons r rs =>
    by_cases hr : r ∈ ok
    · simp only [scanNumber, notEOF, accept, hr, if_true, Except.ok.injEq] at h
      obtain ⟨ds, h1, h2, h3, h4⟩ := acceptAll_inv ok rs _ _ _ h
      refine ⟨r :: ds, by simp [h1], by simp [h2], by simp, ?_, h4⟩
      intro c hc
      rcases List.mem_cons.1 hc with rfl | hc
      · exact hr
      · exact h3 c hc
    · simp [scanNumber, notEOF, accept, hr] at h

theorem scanNumber_error (ok buf input : List Char) (e : GoError)
    (h : scanNumber ok buf input = .error e) : e.fromScanner = true := by
  cases input with
  | nil => simp [scanNumber, notEOF] at h; subst h; rfl
  | cons r rs =>
    by_cases hr : r ∈ ok
    · simp [scanNumber, notEOF, accept, hr] at h
    · simp [scanNumber, notEOF, accept, hr] at h; subst h; rfl

theorem scanUint_inv (bitSize : Nat) (input rest : List Char) (v : Nat)
    (h : scanUint bitSize input = .ok (v, rest)) :
    ∃ sp ds, input = sp ++ (ds ++ rest) ∧ IsSpaces sp ∧ IsNumber ds ∧ NoDigitAhead rest ∧
      decimalValue ds = v ∧ v < 2 ^ bitSize := by
  unfold scanUint at h
  cases h1 : SkipSpace input with
  | error e => simp [h1] at h
  | ok input1 =>
    simp only [h1] at h
    cases h2 : notEOF input1 with
    | error e => simp [h2] at h
    | ok u =>
      simp only [h2] at h
      cases h3 : scanNumber decimalDigits [] input1 with
      | error e => simp [h3] at h
      | ok r =>
        obtain ⟨tok, input2⟩ := r
        simp only [h3] at h
        cases h4 : ParseUint tok with
        | error e => simp [h4] at h
        | ok i =>
          simp only [h4] at h
          obtain ⟨hi, _⟩ := ParseUint_inv tok i h4
          by_cases hov : i % 2 ^ bitSize ≠ i
          · simp [hov] at h
          · simp only [hov, if_false, Except.ok.injEq, Prod.mk.injEq] at h
            obtain ⟨sp, hsp1, hsp2⟩ := SkipSpace_inv _ _ h1
            obtain ⟨ds, hd1, hd2, hd3, hd4, hd5⟩ := scanNumber_inv _ _ _ _ _ h3
            simp only [List.nil_append] at hd1
            subst hd1
            refine ⟨sp, tok, ?_, hsp2, ⟨hd3, hd4⟩, ?_, ?_, ?_⟩
            · rw [hsp1, hd2, h.2]
            · rw [← h.2]; exact hd5
            · rw [← h.1, hi]
            · rw [← h.1]
              simp only [ne_eq, not_not] at hov
              rw [← hov]
              exact Nat.mod_lt _ (by positivity)

theorem scanUint_error (bitSize : Nat) (input : List Char) (e : GoError)
    (h : scanUint bitSize input = .error e) : e.fromScanner = true := by
  unfold scanUint at h
  cases h1 : SkipSpace input with
  | error e1 => simp [h1] at h; subst h; exact SkipSpace_error _ _ h1
  | ok input1 =>
    simp only [h1] at h
    cases h2 : notEOF input1 with
    | error e2 =>
      cases input1 with
      | nil => simp [notEOF] at h; subst h; rfl
      | cons r rs => simp [notEOF] at h2
    | ok u =>
      simp only [h2] at h
      cases h3 : scanNumber decimalDigits [] input1 with
      | error e3 => simp [h3] at h; subst h; exact scanNumber_error _ _ _ _ h3
      | ok r =>
        obtain ⟨tok, input2⟩ := r
        simp only [h3] at h
        cases h4 : ParseUint tok with
        | error e4 => simp [h4] at h; subst h; exact ParseUint_error _ _ h4
        | ok i =>
          simp only [h4] at h
          by_cases hov : i % 2 ^ bitSize ≠ i
          · simp [hov] at h; subst h; rfl
          · simp [hov] at h

theorem IsSpaces_append (a b : List Char) (ha : IsSpaces a) (hb : IsSpaces b) :
    IsSpaces (a ++ b) := by
  intro c hc
  rcases List.mem_append.1 hc with h | h
  · exact ha c h
  · exact hb c h

theorem verbUint_inv (bitSize : Nat) (input rest : List Char) (v : Nat)
    (h : verbUint bitSize input = .ok (v, rest)) :
    ∃ sp ds, input = sp ++ (ds ++ rest) ∧ IsSpaces sp ∧ IsNumber ds ∧ NoDigitAhead rest ∧
      decimalValue ds = v ∧ v < 2 ^ bitSize := by
  unfold verbUint at h
  cases h1 : SkipSpace input with
  | error e => simp [h1] at h
  | ok input1 =>
    simp only [h1] at h
    obtain ⟨sp1, e1, s1⟩ := SkipSpace_inv _ _ h1
    obtain ⟨sp2, ds, e2, s2, rest'⟩ := scanUint_inv _ _ _ _ h
    exact ⟨sp1 ++ sp2, ds, by rw [e1, e2]; simp, IsSpaces_append _ _ s1 s2, rest'⟩

theorem verbUint_error (bitSize : Nat) (input : List Char) (e : GoError)
    (h : verbUint bitSize input = .error e) : e.fromScanner = true := by
  unfold verbUint at h
  cases h1 : SkipSpace input with
  | error e1 => simp [h1] at h; subst h; exact SkipSpace_error _ _ h1
  | ok input1 => simp only [h1] at h; exact scanUint_error _ _ _ h

theorem SscanfParams_inv (f : List Char) (m t p : Nat)
    (h : SscanfParams f = .ok (m, t, p)) : ParamsField (f.take hugeWid) m t p := by
  unfold SscanfParams at h
  cases h1 : advance "m=".toList (f.take hugeWid) with
  | error e => rw [h1] at h; simp at h
  | ok input1 =>
    rw [h1] at h; simp only [] at h
    cases h2 : verbUint 32 input1 with
    | error e => rw [h2] at h; simp at h
    | ok r2 =>
      obtain ⟨memory, input2⟩ := r2
      rw [h2] at h; simp only [] at h
      cases h3 : advance ",t=".toList input2 with
      | error e => rw [h3] at h; simp at h
      | ok input3 =>
        rw [h3] at h; simp only [] at h
        cases h4 : verbUint 32 input3 with
        | error e => rw [h4] at h; simp at h
        | ok r4 =>
          obtain ⟨iterations, input4⟩ := r4
          rw [h4] at h; simp only [] at h
          cases h5 : advance ",p=".toList input4 with
          | error e => rw [h5] at h; simp at h
          | ok input5 =>
            rw [h5] at h; simp only [] at h
            cases h6 : verbUint 8 input5 with
            | error e => rw [h6] at h; simp at h
            | ok r6 =>
              obtain ⟨parallelism, input6⟩ := r6
              rw [h6] at h; simp only [Except.ok.injEq, Prod.mk.injEq] at h
              obtain ⟨rfl, rfl, rfl⟩ := h
              have e1 := advance_inv _ _ _ h1
              obtain ⟨sp1, dm, e2, s1, n1, -, v1, b1⟩ := verbUint_inv _ _ _ _ h2
              have e3 := advance_inv _ _ _ h3
              obtain ⟨sp2, dt, e4, s2, n2, -, v2, b2⟩ := verbUint_inv _ _ _ _ h4
              have e5 := advance_inv _ _ _ h5
              obtain ⟨sp3, dp, e6, s3, n3, nd, v3, b3⟩ := verbUint_inv _ _ _ _ h6
              refine ⟨sp1, dm, sp2, dt, sp3, dp, input6, ?_, s1, s2, s3, n1, n2, n3, nd,
                v1, v2, v3, b1, b2, b3⟩
              rw [e1, e2, e3, e4, e5, e6]

theorem SscanfParams_error (f : List Char) (e : GoError) (h : SscanfParams f = .error e) :
    e.fromScanner = true := by
  unfold SscanfParams at h
  cases h1 : advance "m=".toList (f.take hugeWid) with
  | error e1 => rw [h1] at h; simp at h; subst h; exact advance_error _ _ _ h1
  | ok input1 =>
    rw [h1] at h; simp only [] at h
    cases h2 : verbUint 32 input1 with
    | error e2 => rw [h2] at h; simp at h; subst h; exact verbUint_error _ _ _ h2
    | ok r2 =>
      obtain ⟨memory, input2⟩ := r2
      rw [h2] at h; simp only [] at h
      cases h3 : advance ",t=".toList input2 with
      | error e3 => rw [h3] at h; simp at h; subst h; exact advance_error _ _ _ h3
      | ok input3 =>
        rw [h3] at h; simp only [] at h
        cases h4 : verbUint 32 input3 with
        | error e4 => rw [h4] at h; simp at h; subst h; exact verbUint_error _ _ _ h4
        | ok r4 =>
          obtain ⟨iterations, input4⟩ := r4
          rw [h4] at h; simp only [] at h
          cases h5 : advance ",p=".toList input4 with
          | error e5 => rw [h5] at h; simp at h; subst h; exact advance_error _ _ _ h5
          | ok input5 =>
            rw [h5] at h; simp only [] at h
            cases h6 : verbUint 8 input5 with
            | error e6 => rw [h6] at h; simp at h; subst h; exact verbUint_error _ _ _ h6
            | ok r6 =>
              obtain ⟨parallelism, input6⟩ := r6
              rw [h6] at h; simp at h

theorem SkipSpace_spaces (sp x : List Char) (h : IsSpaces sp) :
    SkipSpace (sp ++ x) = SkipSpace x := by
  induction sp with
  | nil => rfl
  | cons c cs ih =>
    have hc := h c (by simp)
    rw [List.cons_append, SkipSpace_cons, if_neg hc.2, if_pos hc.1]
    exact ih (fun d hd => h d (by simp [hd]))

theorem verbUint_spaces (bitSize : Nat) (sp x : List Char) (h : IsSpaces sp) :
    verbUint bitSize (sp ++ x) = verbUint bitSize x := by
  unfold verbUint
  rw [SkipSpace_spaces sp x h]

theorem SscanfParams_of_ParamsField (f : List Char) (m t p : Nat)
    (h : ParamsField (f.take hugeWid) m t p) : SscanfParams f = .ok (m, t, p) := by
  obtain ⟨sp1, dm, sp2, dt, sp3, dp, rest, e, s1, s2, s3, n1, n2, n3, nd, v1, v2, v3,
    b1, b2, b3⟩ := h
  have h1 := verbUint_append 32 (by decide) dm
    (",t=".toList ++ (sp2 ++ (dt ++ (",p=".toList ++ (sp3 ++ (dp ++ rest)))))) n1.1 n1.2
    (NoDigitAhead_cons ',' _ (by decide)) (by rw [v1]; exact b1)
  have h2 := verbUint_append 32 (by decide) dt (",p=".toList ++ (sp3 ++ (dp ++ rest)))
    n2.1 n2.2 (NoDigitAhead_cons ',' _ (by decide)) (by rw [v2]; exact b2)
  have h3 := verbUint_append 8 (by decide) dp rest n3.1 n3.2 nd (by rw [v3]; exact b3)
  unfold SscanfParams
  rw [e, advance_append]
  simp only []
  rw [verbUint_spaces _ _ _ s1, h1]
  simp only []
  rw [advance_append]
  simp only []
  rw [verbUint_spaces _ _ _ s2, h2]
  simp only []
  rw [advance_append]
  simp only []
  rw [verbUint_spaces _ _ _ s3, h3, v1, v2, v3]

theorem SscanfParams_iff (f : List Char) (m t p : Nat) :
    SscanfParams f = .ok (m, t, p) ↔ ParamsField (f.take hugeWid) m t p :=
  ⟨SscanfParams_inv f m t p, SscanfParams_of_ParamsField f m t p⟩

theorem fromScanner_ne (e : GoError) (h : e.fromScanner = true) :
    e ≠ .ErrInvalidHash ∧ e ≠ .ErrIncompatibleVersion := by
  cases e <;> simp [GoError.fromScanner] at h ⊢

/-! ### Base64: what the decoder accepts -/

theorem decodeMap_some_mem (c : Char) (v : Nat) (h : decodeMap c = some v) : c ∈ encodeStd := by
  unfold decodeMap at h
  split_ifs at h with hlt
  exact List.indexOf_lt_length.1 (by simpa [encodeStd] using hlt)

theorem decodeMap_none_not_mem (c : Char) (h : decodeMap c = none) : c ∉ encodeStd := by
  unfold decodeMap at h
  split_ifs at h with hlt
  intro hm
  exact hlt (by have := List.indexOf_lt_length.2 hm; simpa [encodeStd] using this)

theorem sextets_cons_some (c : Char) (rest : List Char) (v : Nat) (h : decodeMap c = some v) :
    sextets (c :: rest) = v :: sextets rest := by
  simp [sextets, List.filterMap_cons, h]

theorem sextets_cons_none (c : Char) (rest : List Char) (h : decodeMap c = none) :
    sextets (c :: rest) = sextets rest := by
  simp [sextets, List.filterMap_cons, h]

theorem getLastD_append_ne_nil (a b : List Nat) (d : Nat) (hb : b ≠ []) :
    (a ++ b).getLastD d = b.getLastD d := by
  simp only [List.getLastD_eq_getLast?, List.getLast?_append_of_ne_nil _ hb]

theorem StrictSextets_append_quantum (q ds : List Nat) (hq : q.length = 4) :
    StrictSextets (q ++ ds) ↔ StrictSextets ds := by
  cases ds with
  | nil => simp [StrictSextets, hq]
  | cons d ds =>
    unfold StrictSextets
    rw [getLastD_append_ne_nil q (d :: ds) 0 (by simp), List.length_append, hq]
    have : (4 + (d :: ds).length) % 4 = (d :: ds).length % 4 := by omega
    rw [this]

theorem quantumBytes_error (dbuf : List Nat) (e : GoError) (h : quantumBytes dbuf = .error e) :
    e = .corruptInputError := by
  unfold quantumBytes at h
  split at h
  · simp at h
  · simp at h; exact h.symm
  · dsimp only at h; split_ifs at h; simp at h; exact h.symm
  · dsimp only at h; split_ifs at h; simp at h; exact h.symm
  · simp at h

theorem quantumBytes_four (dbuf : List Nat) (h : dbuf.length = 4) :
    ∃ bs, quantumBytes dbuf = .ok bs := by
  unfold quantumBytes
  simp [h]

theorem StrictSextets_two (d0 d1 : Nat) : StrictSextets [d0, d1] ↔ d1 % 16 = 0 := by
  simp [StrictSextets]

theorem StrictSextets_three (d0 d1 d2 : Nat) : StrictSextets [d0, d1, d2] ↔ d2 % 4 = 0 := by
  simp [StrictSextets]

theorem quantumBytes_two (d0 d1 : Nat) :
    (∃ bs, quantumBytes [d0, d1] = .ok bs) ↔ d1 % 16 = 0 := by
  have key : (byteOf ((d0 * 2 ^ 18 + d1 * 2 ^ 12 + 0 * 2 ^ 6 + 0) / 2 ^ 8) = 0 ∧
      byteOf (d0 * 2 ^ 18 + d1 * 2 ^ 12 + 0 * 2 ^ 6 + 0) = 0) ↔ d1 % 16 = 0 := by
    simp only [byteOf, Fin.ext_iff, Fin.val_zero]
    omega
  simp only [quantumBytes, quantumVal, List.length_cons, List.length_nil,
    List.getD_cons_zero, List.getD_cons_succ, List.getD_nil]
  by_cases hd : d1 % 16 = 0
  · have hc : ¬ (byteOf ((d0 * 2 ^ 18 + d1 * 2 ^ 12 + 0 * 2 ^ 6 + 0) / 2 ^ 8) ≠ 0 ∨
        byteOf (d0 * 2 ^ 18 + d1 * 2 ^ 12 + 0 * 2 ^ 6 + 0) ≠ 0) := by
      have := key.2 hd
      intro h; rcases h with h | h
      · exact h this.1
      · exact h this.2
    rw [if_neg hc]
    exact ⟨fun _ => hd, fun _ => ⟨_, rfl⟩⟩
  · have hc : (byteOf ((d0 * 2 ^ 18 + d1 * 2 ^ 12 + 0 * 2 ^ 6 + 0) / 2 ^ 8) ≠ 0 ∨
        byteOf (d0 * 2 ^ 18 + d1 * 2 ^ 12 + 0 * 2 ^ 6 + 0) ≠ 0) := by
      by_contra hcon
      rw [not_or, not_not, not_not] at hcon
      exact hd (key.1 hcon)
    rw [if_pos hc]
    exact ⟨fun ⟨_, h⟩ => by simp at h, fun h => absurd h hd⟩

theorem quantumBytes_three (d0 d1 d2 : Nat) :
    (∃ bs, quantumBytes [d0, d1, d2] = .ok bs) ↔ d2 % 4 = 0 := by
  have key : byteOf (d0 * 2 ^ 18 + d1 * 2 ^ 12 + d2 * 2 ^ 6 + 0) = 0 ↔ d2 % 4 = 0 := by
    simp only [byteOf, Fin.ext_iff, Fin.val_zero]
    omega
  simp only [quantumBytes, quantumVal, List.length_cons, List.length_nil,
    List.getD_cons_zero, List.getD_cons_succ, List.getD_nil]
  by_cases hd : d2 % 4 = 0
  · have hc : ¬ (byteOf (d0 * 2 ^ 18 + d1 * 2 ^ 12 + d2 * 2 ^ 6 + 0) ≠ 0) :=
      fun h => h (key.2 hd)
    rw [if_neg hc]
    exact ⟨fun _ => hd, fun _ => ⟨_, rfl⟩⟩
  · have hc : byteOf (d0 * 2 ^ 18 + d1 * 2 ^ 12 + d2 * 2 ^ 6 + 0) ≠ 0 :=
      fun h => hd (key.1 h)
    rw [if_pos hc]
    exact ⟨fun ⟨_, h⟩ => by simp at h, fun h => absurd h hd⟩

/-- At the end of the input the quantum is accepted exactly when its sextets
are those of whole bytes. -/
theorem quantumBytes_ok_iff (dbuf : List Nat) (hlen : dbuf.length < 4) :
    (∃ bs, quantumBytes dbuf = .ok bs) ↔ StrictSextets dbuf := by
  match dbuf, hlen with
  | [], _ => simp [quantumBytes, StrictSextets]
  | [d0], _ => simp [quantumBytes, StrictSextets]
  | [d0, d1], _ => rw [quantumBytes_two, StrictSextets_two]
  | [d0, d1, d2], _ => rw [quantumBytes_three, StrictSextets_three]
  | _ :: _ :: _ :: _ :: _, h => simp only [List.length_cons] at h; omega

/-- The decoder accepts exactly the valid strings, whatever bytes it has
already produced; `dbuf` is the quantum being read. -/
theorem decodeLoop_ok_iff (src : List Char) :
    ∀ (dbuf : List Nat) (dst : List Byte), dbuf.length < 4 →
      ((∃ out, decodeLoop src dbuf dst = .ok out) ↔
        ((∀ c ∈ src, c = '\n' ∨ c = '\r' ∨ c ∈ encodeStd) ∧
          StrictSextets (dbuf ++ sextets src))) := by
  induction src with
  | nil =>
    intro dbuf dst hlen
    have hq := quantumBytes_ok_iff dbuf hlen
    simp only [decodeLoop, sextets, List.filterMap_nil, List.append_nil, List.not_mem_nil,
      false_imp_iff, implies_true, true_and]
    rw [← hq]
    cases quantumBytes dbuf <;> simp
  | cons c rest ih =>
    intro dbuf dst hlen
    rw [decodeLoop]
    cases hc : decodeMap c with
    | some v =>
      have hmem := decodeMap_some_mem c v hc
      rw [sextets_cons_some c rest v hc]
      simp only [List.mem_cons, forall_eq_or_imp, hmem, or_true, true_and]
      by_cases h3 : dbuf.length = 3
      · rw [if_pos h3]
        obtain ⟨bs, hbs⟩ := quantumBytes_four (dbuf ++ [v]) (by simp [h3])
        rw [hbs]
        simp only []
        rw [ih [] (dst ++ bs) (by simp), List.nil_append,
          show dbuf ++ v :: sextets rest = (dbuf ++ [v]) ++ sextets rest by simp,
          StrictSextets_append_quantum _ _ (by simp [h3])]
      · rw [if_neg h3]
        rw [ih (dbuf ++ [v]) dst (by simp; omega),
          show dbuf ++ v :: sextets rest = (dbuf ++ [v]) ++ sextets rest by simp]
    | none =>
      have hnm := decodeMap_none_not_mem c hc
      rw [sextets_cons_none c rest hc]
      simp only [List.mem_cons, forall_eq_or_imp]
      by_cases hnl : c = '\n' ∨ c = '\r'
      · rw [if_pos hnl, ih dbuf dst hlen]
        have : c = '\n' ∨ c = '\r' ∨ c ∈ encodeStd := by tauto
        simp [this]
      · rw [if_neg hnl]
        have : ¬ (c = '\n' ∨ c = '\r' ∨ c ∈ encodeStd) := by tauto
        simp [this]

theorem decodeLoop_error (src : List Char) :
    ∀ (dbuf : List Nat) (dst : List Byte) (e : GoError),
      decodeLoop src dbuf dst = .error e → e = .corruptInputError := by
  induction src with
  | nil =>
    intro dbuf dst e h
    rw [decodeLoop] at h
    cases hq : quantumBytes dbuf with
    | error e1 => rw [hq] at h; simp at h; subst h; exact quantumBytes_error _ _ hq
    | ok bs => rw [hq] at h; simp at h
  | cons c rest ih =>
    intro dbuf dst e h
    rw [decodeLoop] at h
    cases hc : decodeMap c with
    | some v =>
      rw [hc] at h
      simp only [] at h
      by_cases h3 : dbuf.length = 3
      · rw [if_pos h3] at h
        cases hq : quantumBytes (dbuf ++ [v]) with
        | error e1 => rw [hq] at h; simp at h; subst h; exact quantumBytes_error _ _ hq
        | ok bs => rw [hq] at h; exact ih _ _ _ h
      · rw [if_neg h3] at h
        exact ih _ _ _ h
    | none =>
      rw [hc] at h
      simp only [] at h
      by_cases hnl : c = '\n' ∨ c = '\r'
      · rw [if_pos hnl] at h; exact ih _ _ _ h
      · rw [if_neg hnl] at h; simp at h; exact h.symm

/-- `DecodeString` succeeds exactly on the valid unpadded strict strings. -/
theorem DecodeString_ok_iff (f : List Char) :
    (∃ out, DecodeString f = .ok out) ↔ ValidRawStd f := by
  unfold DecodeString ValidRawStd
  rw [decodeLoop_ok_iff f [] [] (by simp), List.nil_append]

theorem DecodeString_invalid (f : List Char) (h : ¬ ValidRawStd f) :
    DecodeString f = .error .corruptInputError := by
  cases hd : DecodeString f with
  | ok out => exact absurd ((DecodeString_ok_iff f).1 ⟨out, hd⟩) h
  | error e => rw [decodeLoop_error f [] [] e hd]

theorem DecodeString_error (f : List Char) (e : GoError) (h : DecodeString f = .error e) :
    e = .corruptInputError := decodeLoop_error f [] [] e h

/-! ### Constant-time comparison -/

theorem or_eq_zero (a b : Nat) : a ||| b = 0 ↔ a = 0 ∧ b = 0 := by
  constructor
  · intro h
    have key : ∀ i, (a.testBit i || b.testBit i) = false := by
      intro i
      have := congrArg (fun n => Nat.testBit n i) h
      simpa [Nat.testBit_or] using this
    constructor <;> apply Nat.eq_of_testBit_eq <;> intro i <;> have := key i <;>
      simp only [Bool.or_eq_false_iff] at this <;> simp [this]
  · rintro ⟨rfl, rfl⟩; rfl

theorem foldl_or_xor_eq_zero (l : List (Byte × Byte)) (a : Nat) :
    l.foldl (fun v p => v ||| (p.1.val ^^^ p.2.val)) a = 0 ↔ a = 0 ∧ ∀ p ∈ l, p.1 = p.2 := by
  induction l generalizing a with
  | nil => simp
  | cons q l ih =>
    rw [List.foldl_cons, ih, or_eq_zero, Nat.xor_eq_zero]
    simp only [List.mem_cons, forall_eq_or_imp, Fin.val_inj]
    tauto

theorem zip_forall_eq (x y : List Byte) (h : x.length = y.length) :
    (∀ p ∈ List.zip x y, p.1 = p.2) ↔ x = y := by
  induction x generalizing y with
  | nil => cases y <;> simp at h ⊢
  | cons a x ih =>
    cases y with
    | nil => simp at h
    | cons b y =>
      simp only [List.length_cons, add_left_inj] at h
      simp only [List.zip_cons_cons, List.mem_cons, forall_eq_or_imp, ih y h, List.cons.injEq]

theorem ConstantTimeCompare_eq_one (x y : List Byte) : ConstantTimeCompare x y = 1 ↔ x = y := by
  unfold ConstantTimeCompare
  by_cases h : x.length = y.length
  · simp only [ne_eq, h, not_true_eq_false, if_false]
    rw [← zip_forall_eq x y h]
    have := foldl_or_xor_eq_zero (List.zip x y) 0
    simp only [true_and] at this
    rw [← this]
    split_ifs <;> simp_all
  · have : x ≠ y := fun e => h (by rw [e])
    simp [h, this]

theorem ConstantTimeCompare_self (x : List Byte) : ConstantTimeCompare x x = 1 :=
  (ConstantTimeCompare_eq_one x x).2 rfl

/-! ### The service -/

theorem flipBit_length (key : List Byte) (i k : Nat) : (flipBit key i k).length = key.length := by
  induction key generalizing i with
  | nil => simp [flipBit]
  | cons b bs ih => cases i <;> simp [flipBit, ih]

theorem flipByte_ne (b : Byte) (k : Nat) (hk : k < 8) : byteOf (b.val ^^^ 2 ^ k) ≠ b := by
  intro h
  have hlt : b.val ^^^ 2 ^ k < 2 ^ 8 :=
    Nat.xor_lt_two_pow b.isLt (Nat.pow_lt_pow_right (by decide) hk)
  have h1 : (b.val ^^^ 2 ^ k) % 256 = b.val := congrArg Fin.val h
  rw [Nat.mod_eq_of_lt (show b.val ^^^ 2 ^ k < 256 from hlt)] at h1
  have h2 : b.val ^^^ (b.val ^^^ 2 ^ k) = b.val ^^^ b.val := by rw [h1]
  rw [← Nat.xor_assoc, Nat.xor_self, Nat.zero_xor] at h2
  exact absurd h2 (by positivity)

theorem flipBit_ne (key : List Byte) (i k : Nat) (hi : i < key.length) (hk : k < 8) :
    flipBit key i k ≠ key := by
  induction key generalizing i with
  | nil => simp at hi
  | cons b bs ih =>
    cases i with
    | zero => simp [flipBit, flipByte_ne b k hk]
    | succ i => simp [flipBit, ih i (by simpa using hi)]

theorem IDKey_ret (kdf : Kdf) (password : List Char) (salt : List Byte)
    (time memory threads keyLen : Nat) (ht : 1 ≤ time) (hp : 1 ≤ threads)
    (hk : 1 ≤ keyLen) :
    IDKey kdf password salt time memory threads keyLen =
      .ret ((List.range keyLen).map (kdf password salt time memory threads keyLen)) := by
  unfold IDKey
  rw [if_neg (by omega), if_neg (by omega), if_neg (by omega)]

/-- When `IDKey` returns, its three guards were passed. -/
theorem IDKey_ret_inv (kdf : Kdf) (password : List Char) (salt : List Byte)
    (time memory threads keyLen : Nat) (key : List Byte)
    (h : IDKey kdf password salt time memory threads keyLen = .ret key) :
    1 ≤ time ∧ 1 ≤ threads ∧ 1 ≤ keyLen ∧
      key = (List.range keyLen).map (kdf password salt time memory threads keyLen) := by
  unfold IDKey at h
  by_cases h1 : time < 1
  · rw [if_pos h1] at h; simp at h
  · rw [if_neg h1] at h
    by_cases h2 : threads < 1
    · rw [if_pos h2] at h; simp at h
    · rw [if_neg h2] at h
      by_cases h3 : keyLen < 1
      · rw [if_pos h3] at h; simp at h
      · rw [if_neg h3] at h
        simp only [Run.ret.injEq] at h
        exact ⟨by omega, by omega, by omega, h.symm⟩

/-- The two outcomes of `generateSalt`: the error of the read with a nil
slice, or the buffer of `n` bytes with a nil error. -/
theorem generateSalt_eq (rand : Entropy) (n : Nat) :
    generateSalt rand n =
      match (randRead rand n).2 with
      | some err => (none, some err)
      | none => (some ((List.range n).map rand.byte), none) := by
  unfold generateSalt randRead
  by_cases hn : n = 0
  · simp [hn]
  · simp only [hn, if_false]
    cases rand.err <;> rfl

/-- What a successful `HashPassword` returns: the encoding of the generated
salt and of the key derived from it. -/
theorem HashPassword_ret (kdf : Kdf) (rand : Entropy) (a : Argon) (password h : List Char)
    (hh : HashPassword kdf rand a password = .ret (h, none)) :
    1 ≤ a.Iterations ∧ 1 ≤ a.Parallelism ∧ 1 ≤ a.KeyLength ∧
    h = encodeHash a.Memory a.Iterations a.Parallelism ((List.range a.SaltLength).map rand.byte)
      ((List.range a.KeyLength).map (kdf password ((List.range a.SaltLength).map rand.byte)
        a.Iterations a.Memory a.Parallelism a.KeyLength)) := by
  unfold HashPassword at hh
  rw [generateSalt_eq] at hh
  cases hre : (randRead rand a.SaltLength).2 with
  | some e => rw [hre] at hh; simp at hh
  | none =>
    rw [hre] at hh
    simp only [] at hh
    cases hk : IDKey kdf password ((List.range a.SaltLength).map rand.byte) a.Iterations
        a.Memory a.Parallelism a.KeyLength with
    | panic => rw [hk] at hh; simp at hh
    | ret key =>
      rw [hk] at hh
      simp only [Run.ret.injEq, Prod.mk.injEq, and_true] at hh
      obtain ⟨h1, h2, h3, rfl⟩ := IDKey_ret_inv _ _ _ _ _ _ _ _ hk
      exact ⟨h1, h2, h3, hh.symm⟩

theorem VerifyPassword_of_decode (kdf : Kdf) (a : Argon) (password encodedHash : List Char)
    (params : Argon) (salt key : List Byte)
    (hd : decodeArgonHash encodedHash = ⟨some params, some salt, some key, none⟩)
    (ht : 1 ≤ params.Iterations) (hp : 1 ≤ params.Parallelism)
    (hk : 1 ≤ params.KeyLength) :
    VerifyPassword kdf a password encodedHash =
      .ret (decide ((List.range params.KeyLength).map (kdf password salt params.Iterations
        params.Memory params.Parallelism params.KeyLength) = key), none) := by
  unfold VerifyPassword
  rw [hd]
  simp only []
  rw [IDKey_ret kdf password salt _ _ _ _ ht hp hk]
  simp only []
  by_cases hc : ConstantTimeCompare key ((List.range params.KeyLength).map (kdf password salt
      params.Iterations params.Memory params.Parallelism params.KeyLength)) = 1
  · rw [if_pos hc]
    have := (ConstantTimeCompare_eq_one _ _).1 hc
    simp [this.symm]
  · rw [if_neg hc]
    have : ¬ ((List.range params.KeyLength).map (kdf password salt
      params.Iterations params.Memory params.Parallelism params.KeyLength) = key) :=
      fun e => hc ((ConstantTimeCompare_eq_one _ _).2 e.symm)
    simp [this]

/-! ### Taking a decode apart -/

/-- A list of length six is a list of six elements. -/
theorem length_six {α : Type} (l : List α) (h : l.length = 6) :
    ∃ a b c d e f, l = [a, b, c, d, e, f] := by
  match l, h with
  | [a, b, c, d, e, f], _ => exact ⟨a, b, c, d, e, f, rfl⟩

/-- The result of `decodeArgonHash` is determined by the number of fields and
by the fields 2 to 5. -/
theorem decodeArgonHash_of_fields (s f0 f1 f2 f3 f4 f5 : List Char)
    (hs : Split s '$' = [f0, f1, f2, f3, f4, f5]) :
    decodeArgonHash s =
      match SscanfVersion f2 with
      | .error err => ⟨none, none, none, some err⟩
      | .ok version =>
        if version ≠ argon2Version then ⟨none, none, none, some .ErrIncompatibleVersion⟩
        else
          match SscanfParams f3 with
          | .error err => ⟨none, none, none, some err⟩
          | .ok (memory, iterations, parallelism) =>
            match DecodeString f4 with
            | .error err => ⟨none, none, none, some err⟩
            | .ok salt =>
              match DecodeString f5 with
              | .error err => ⟨none, none, none, some err⟩
              | .ok hash =>
                ⟨some ⟨memory, iterations, parallelism, salt.length % 2 ^ 32,
                    hash.length % 2 ^ 32⟩, some salt, some hash, none⟩ := by
  unfold decodeArgonHash
  simp only [hs, List.length_cons, List.length_nil, List.getD_cons_zero, List.getD_cons_succ]
  rfl

/-- A successful decode, taken apart. -/
theorem decodeArgonHash_ok_inv (s : List Char) (oa : Option Argon)
    (osalt ohash : Option (List Byte))
    (h : decodeArgonHash s = ⟨oa, osalt, ohash, none⟩) :
    ∃ f0 f1 f2 f3 f4 f5 m t p salt key,
      Split s '$' = [f0, f1, f2, f3, f4, f5] ∧ SscanfVersion f2 = .ok argon2Version ∧
      SscanfParams f3 = .ok (m, t, p) ∧ DecodeString f4 = .ok salt ∧
      DecodeString f5 = .ok key ∧
      oa = some ⟨m, t, p, salt.length % 2 ^ 32, key.length % 2 ^ 32⟩ ∧
      osalt = some salt ∧ ohash = some key := by
  by_cases h6 : (Split s '$').length = 6
  · obtain ⟨f0, f1, f2, f3, f4, f5, hs⟩ := length_six _ h6
    rw [decodeArgonHash_of_fields s f0 f1 f2 f3 f4 f5 hs] at h
    cases hv : SscanfVersion f2 with
    | error e => rw [hv] at h; simp at h
    | ok version =>
      rw [hv] at h
      simp only [] at h
      by_cases hver : version ≠ argon2Version
      · rw [if_pos hver] at h; simp at h
      · rw [if_neg hver] at h
        simp only [ne_eq, not_not] at hver
        subst hver
        cases hp : SscanfParams f3 with
        | error e => rw [hp] at h; simp at h
        | ok r =>
          obtain ⟨m, t, p⟩ := r
          rw [hp] at h
          simp only [] at h
          cases h4 : DecodeString f4 with
          | error e => rw [h4] at h; simp at h
          | ok salt =>
            rw [h4] at h
            simp only [] at h
            cases h5 : DecodeString f5 with
            | error e => rw [h5] at h; simp at h
            | ok key =>
              rw [h5] at h
              simp only [Decoded.mk.injEq, and_true] at h
              exact ⟨f0, f1, f2, f3, f4, f5, m, t, p, salt, key, hs, hv, hp, h4, h5,
                h.1.symm, h.2.1.symm, h.2.2.symm⟩
  · unfold decodeArgonHash at h
    simp [h6] at h

/-- A failed decode returns nil results. -/
theorem decodeArgonHash_error_inv (s : List Char) (oa : Option Argon)
    (osalt ohash : Option (List Byte)) (e : GoError)
    (h : decodeArgonHash s = ⟨oa, osalt, ohash, some e⟩) :
    oa = none ∧ osalt = none ∧ ohash = none := by
  by_cases h6 : (Split s '$').length = 6
  · obtain ⟨f0, f1, f2, f3, f4, f5, hs⟩ := length_six _ h6
    rw [decodeArgonHash_of_fields s f0 f1 f2 f3 f4 f5 hs] at h
    cases hv : SscanfVersion f2 with
    | error e => rw [hv] at h; simp at h; tauto
    | ok version =>
      rw [hv] at h
      simp only [] at h
      by_cases hver : version ≠ argon2Version
      · rw [if_pos hver] at h; simp at h; tauto
      · rw [if_neg hver] at h
        cases hp : SscanfParams f3 with
        | error e => rw [hp] at h; simp at h; tauto
        | ok r =>
          obtain ⟨m, t, p⟩ := r
          rw [hp] at h
          simp only [] at h
          cases h4 : DecodeString f4 with
          | error e => rw [h4] at h; simp at h; tauto
          | ok salt =>
            rw [h4] at h
            simp only [] at h
            cases h5 : DecodeString f5 with
            | error e => rw [h5] at h; simp at h; tauto
            | ok key => rw [h5] at h; simp at h
  · unfold decodeArgonHash at h
    simp [h6] at h
    tauto

/-- `VerifyPassword` in terms of the decode: a decode error is returned with
`false`, and a successful decode leads to the derivation and the comparison. -/
theorem VerifyPassword_of_error (kdf : Kdf) (a : Argon) (password encodedHash : List Char)
    (e : GoError) (h : (decodeArgonHash encodedHash).err = some e) :
    VerifyPassword kdf a password encodedHash = .ret (false, some e) := by
  unfold VerifyPassword
  rcases hd : decodeArgonHash encodedHash with ⟨oa, osalt, ohash, oerr⟩
  rw [hd] at h
  simp only at h
  subst h
  cases oa <;> cases osalt <;> cases ohash <;> rfl

theorem VerifyPassword_of_ok (kdf : Kdf) (a : Argon) (password encodedHash : List Char)
    (h : (decodeArgonHash encodedHash).err = none) :
    ∃ params salt key,
      decodeArgonHash encodedHash = ⟨some params, some salt, some key, none⟩ ∧
      VerifyPassword kdf a password encodedHash =
        match IDKey kdf password salt params.Iterations params.Memory params.Parallelism
            params.KeyLength with
        | .panic => .panic
        | .ret otherHash =>
          if ConstantTimeCompare key otherHash = 1 then .ret (true, none)
          else .ret (false, none) := by
  rcases hd : decodeArgonHash encodedHash with ⟨oa, osalt, ohash, oerr⟩
  rw [hd] at h
  simp only at h
  subst h
  obtain ⟨f0, f1, f2, f3, f4, f5, m, t, p, salt, key, -, -, -, -, -, rfl, rfl, rfl⟩ :=
    decodeArgonHash_ok_inv encodedHash oa osalt ohash hd
  refine ⟨_, salt, key, rfl, ?_⟩
  unfold VerifyPassword
  rw [hd]

theorem sprintfHash_eq (m t p : Nat) (b64Salt b64Hash : List Char) :
    sprintfHash argon2Version.toNat m t p b64Salt b64Hash =
      [] ++ '$' :: ("argon2id".toList ++ '$' :: ("v=19".toList ++ '$' ::
        (("m=".toList ++ fmtDecimal m ++ ",t=".toList ++ fmtDecimal t ++ ",p=".toList ++
          fmtDecimal p) ++ '$' :: (b64Salt ++ '$' :: b64Hash)))) := by
  have h19 : fmtDecimal argon2Version.toNat = "19".toList := by decide
  simp [sprintfHash, h19]

theorem paramsText_no_sep (m t p : Nat) :
    '$' ∉ "m=".toList ++ fmtDecimal m ++ ",t=".toList ++ fmtDecimal t ++ ",p=".toList ++
      fmtDecimal p := by
  have hd : '$' ∉ decimalDigits := by decide
  have hdm := not_mem_of_forall_mem '$' _ _ (fmtDecimal_digits m) hd
  have hdt := not_mem_of_forall_mem '$' _ _ (fmtDecimal_digits t) hd
  have hdp := not_mem_of_forall_mem '$' _ _ (fmtDecimal_digits p) hd
  simp [hdm, hdt, hdp]

/-- The six fields of a string built by the `fmt.Sprintf` call of
`HashPassword`, when the two base64 fields contain no "$". -/
theorem Split_sprintfHash (m t p : Nat) (b64Salt b64Hash : List Char)
    (h4 : '$' ∉ b64Salt) (h5 : '$' ∉ b64Hash) :
    Split (sprintfHash argon2Version.toNat m t p b64Salt b64Hash) '$' =
      [[], "argon2id".toList, "v=19".toList,
        "m=".toList ++ fmtDecimal m ++ ",t=".toList ++ fmtDecimal t ++ ",p=".toList ++
          fmtDecimal p, b64Salt, b64Hash] := by
  rw [sprintfHash_eq, Split_append _ _ _ (by simp), Split_append _ _ _ (by decide),
    Split_append _ _ _ (by decide), Split_append _ _ _ (paramsText_no_sep m t p),
    Split_append _ _ _ h4, Split_of_not_mem _ _ h5]

theorem EncodeToString_no_sep (src : List Byte) : '$' ∉ EncodeToString src :=
  not_mem_of_forall_mem '$' _ _ (EncodeToString_mem src) (by decide)

theorem ValidRawStd_no_sep (f : List Char) (h : ValidRawStd f) : '$' ∉ f := by
  intro hm
  have := h.1 '$' hm
  revert this
  decide

theorem count_sep_of_Split (s : List Char) (n : Nat) (h : (Split s '$').length = n + 1) :
    s.count '$' = n := by
  rw [Split_length] at h; omega

theorem Split_fields_no_sep (s : List Char) (sep : Char) :
    ∀ f ∈ Split s sep, sep ∉ f := by
  induction s with
  | nil => simp [Split]
  | cons c cs ih =>
    unfold Split
    by_cases hc : c = sep
    · rw [if_pos hc]
      intro f hf
      rcases List.mem_cons.1 hf with rfl | hf
      · simp
      · exact ih f hf
    · rw [if_neg hc]
      cases hsp : Split cs sep with
      | nil => exact absurd hsp (Split_ne_nil _ _)
      | cons g gs =>
        rw [hsp] at ih
        intro f hf
        rcases List.mem_cons.1 hf with rfl | hf
        · intro hm
          rcases List.mem_cons.1 hm with h | h
          · exact hc h.symm
          · exact ih g (by simp) h
        · exact ih f (by simp [hf])

/-! ## The claims -/

/-- C1: round trip of the codec.  For every memory and iteration count that
fit `uint32`, every parallelism that fits `uint8`, and every salt and key
whose lengths fit `uint32`, `decodeArgonHash` applied to the string
`HashPassword` builds from them returns no error and exactly that salt, that
key and the parameter set with `SaltLength = len(salt)` and
`KeyLength = len(key)`.  Positivity and non-emptiness are not needed. -/
theorem C1_decode_encode_roundtrip (memory iterations parallelism : Nat) (salt key : List Byte)
    (hm : memory < 2 ^ 32) (ht : iterations < 2 ^ 32) (hp : parallelism < 2 ^ 8)
    (hs : salt.length < 2 ^ 32) (hk : key.length < 2 ^ 32) :
    decodeArgonHash (encodeHash memory iterations parallelism salt key) =
      ⟨some ⟨memory, iterations, parallelism, salt.length, key.length⟩,
        some salt, some key, none⟩ := by
  rw [decodeArgonHash_encodeHash memory iterations parallelism salt key hm ht hp,
    Nat.mod_eq_of_lt hs, Nat.mod_eq_of_lt hk]

theorem C1_decode_encode_roundtrip_witness :
    (65536 < 2 ^ 32 ∧ 3 < 2 ^ 32 ∧ 2 < 2 ^ 8 ∧
      ([115, 97, 108, 116] : List Byte).length < 2 ^ 32 ∧
      ([104, 97, 115, 104] : List Byte).length < 2 ^ 32) ∧
    encodeHash 65536 3 2 [115, 97, 108, 116] [104, 97, 115, 104] =
      "$argon2id$v=19$m=65536,t=3,p=2$c2FsdA$aGFzaA".toList ∧
    decodeArgonHash (encodeHash 65536 3 2 [115, 97, 108, 116] [104, 97, 115, 104]) =
      ⟨some ⟨65536, 3, 2, 4, 4⟩, some [115, 97, 108, 116], some [104, 97, 115, 104], none⟩ :=
  ⟨by decide, by decide,
    C1_decode_encode_roundtrip 65536 3 2 [115, 97, 108, 116] [104, 97, 115, 104]
      (by decide) (by decide) (by decide) (by decide) (by decide)⟩

/-- C2: verification correctness.  For every password and every service whose
five parameters are positive (and fit their types), if `HashPassword`
succeeds with the encoded hash `h`, then `VerifyPassword(password, h)`
returns `(true, nil)`. -/
theorem C2_verify_accepts_own_hash (kdf : Kdf) (rand : Entropy) (a : Argon)
    (password h : List Char) (hr : a.InRange) (hpos : a.Positive)
    (hh : HashPassword kdf rand a password = .ret (h, none)) :
    VerifyPassword kdf a password h = .ret (true, none) := by
  obtain ⟨hm, ht, hp, hs, hk⟩ := hr
  obtain ⟨_, ht1, hp1, _, hk1⟩ := hpos
  obtain ⟨-, -, -, rfl⟩ := HashPassword_ret kdf rand a password h hh
  have hd := decodeArgonHash_encodeHash a.Memory a.Iterations a.Parallelism
    ((List.range a.SaltLength).map rand.byte)
    ((List.range a.KeyLength).map (kdf password ((List.range a.SaltLength).map rand.byte)
        a.Iterations a.Memory a.Parallelism a.KeyLength)) hm ht hp
  rw [VerifyPassword_of_decode kdf a password _ _ _ _ hd ht1 hp1
    (by simp only [List.length_map, List.length_range, Nat.mod_eq_of_lt hk]; exact hk1)]
  have hk2 : a.KeyLength % 4294967296 = a.KeyLength := Nat.mod_eq_of_lt hk
  simp [hk2]

theorem C2_verify_accepts_own_hash_witness :
    (sampleService.InRange ∧ sampleService.Positive ∧
      HashPassword sampleKdf sampleEntropy sampleService "pw".toList =
        .ret ("$argon2id$v=19$m=65536,t=3,p=2$BwgJCg$AgMEBQY".toList, none)) ∧
    VerifyPassword sampleKdf sampleService "pw".toList
      "$argon2id$v=19$m=65536,t=3,p=2$BwgJCg$AgMEBQY".toList = .ret (true, none) :=
  ⟨⟨by decide, by decide, by decide⟩,
    C2_verify_accepts_own_hash sampleKdf sampleEntropy sampleService "pw".toList _
      (by decide) (by decide) (by decide)⟩

/-- C3: verification uses the parameter set embedded in the hash, not the
configuration of the service.  For every password, every encoded hash and any
two services `a` and `b`, `a.VerifyPassword` and `b.VerifyPassword` give the
same result: the same match value and error, or both panic. -/
theorem C3_verify_ignores_receiver (kdf : Kdf) (a b : Argon) (password encodedHash : List Char) :
    VerifyPassword kdf a password encodedHash = VerifyPassword kdf b password encodedHash := by
  unfold VerifyPassword
  rfl

/-- When the decode succeeds with positive `Iterations`, `Parallelism` and
`KeyLength`, the derivation returns a key `otherHash`, `VerifyPassword`
returns a nil error, and its match value is true if and only if `otherHash`
equals the decoded key. -/
theorem VerifyPassword_compares_rederived_key (kdf : Kdf) (a : Argon)
    (password encodedHash : List Char) (params : Argon) (salt key : List Byte)
    (hd : decodeArgonHash encodedHash = ⟨some params, some salt, some key, none⟩)
    (ht : 1 ≤ params.Iterations) (hp : 1 ≤ params.Parallelism)
    (hk : 1 ≤ params.KeyLength) :
    ∃ otherHash mtch,
      IDKey kdf password salt params.Iterations params.Memory params.Parallelism
        params.KeyLength = .ret otherHash ∧
      VerifyPassword kdf a password encodedHash = .ret (mtch, none) ∧
      (mtch = true ↔ otherHash = key) :=
  ⟨_, _, IDKey_ret kdf password salt _ _ _ _ ht hp hk,
    VerifyPassword_of_decode kdf a password encodedHash params salt key hd ht hp hk, by simp⟩

/-- C4 fails on the code: on a stored string with `t=0`, and on one whose key
field is empty, the decode succeeds and `VerifyPassword` returns no result at
all, because `argon2.IDKey` panics on an iteration count below 1 and on a key
length of 0. -/
theorem C4_verify_panics_after_successful_decode :
    decodeArgonHash "$argon2id$v=19$m=65536,t=0,p=2$c2FsdA$aGFzaA".toList =
      ⟨some ⟨65536, 0, 2, 4, 4⟩, some [115, 97, 108, 116], some [104, 97, 115, 104], none⟩ ∧
    VerifyPassword sampleKdf sampleService "pw".toList
      "$argon2id$v=19$m=65536,t=0,p=2$c2FsdA$aGFzaA".toList = .panic ∧
    decodeArgonHash "$argon2id$v=19$m=65536,t=3,p=2$c2FsdA$".toList =
      ⟨some ⟨65536, 3, 2, 4, 0⟩, some [115, 97, 108, 116], some [], none⟩ ∧
    VerifyPassword sampleKdf sampleService "pw".toList
      "$argon2id$v=19$m=65536,t=3,p=2$c2FsdA$".toList = .panic := by
  refine ⟨by decide, by decide, by decide, by decide⟩

/-- C5: tamper sensitivity of the key field.  For every password and every
service with positive parameters, if `h = HashPassword(password)` decodes to
`(params, salt, key)` and `key'` is `key` with bit `k` of byte `i` flipped,
then `VerifyPassword(password, h')` returns `(false, nil)`, where `h'` is the
encoding of `(params, salt, key')`. -/
theorem C5_flipped_key_bit_rejected (kdf : Kdf) (rand : Entropy) (a : Argon)
    (password h : List Char) (params : Argon) (salt key : List Byte) (i k : Nat)
    (hr : a.InRange) (hpos : a.Positive)
    (hh : HashPassword kdf rand a password = .ret (h, none))
    (hd : decodeArgonHash h = ⟨some params, some salt, some key, none⟩)
    (hi : i < key.length) (hk : k < 8) :
    VerifyPassword kdf a password
      (encodeHash params.Memory params.Iterations params.Parallelism salt (flipBit key i k)) =
      .ret (false, none) := by
  obtain ⟨hm, ht, hp, hs, hkl⟩ := hr
  obtain ⟨_, ht1, hp1, _, hk1⟩ := hpos
  obtain ⟨-, -, -, rfl⟩ := HashPassword_ret kdf rand a password h hh
  rw [decodeArgonHash_encodeHash _ _ _ _ _ hm ht hp] at hd
  simp only [Decoded.mk.injEq, Option.some.injEq, and_true] at hd
  obtain ⟨rfl, rfl, rfl⟩ := hd
  simp only [List.length_map, List.length_range] at hi ⊢
  have hd2 := decodeArgonHash_encodeHash a.Memory a.Iterations a.Parallelism
    ((List.range a.SaltLength).map rand.byte)
    (flipBit ((List.range a.KeyLength).map (kdf password ((List.range a.SaltLength).map rand.byte)
        a.Iterations a.Memory a.Parallelism a.KeyLength)) i k) hm ht hp
  rw [VerifyPassword_of_decode kdf a password _ _ _ _ hd2 ht1 hp1
    (by simp only [flipBit_length, List.length_map, List.length_range, Nat.mod_eq_of_lt hkl]
        exact hk1)]
  simp only [flipBit_length, List.length_map, List.length_range, Nat.mod_eq_of_lt hkl]
  have hne := flipBit_ne ((List.range a.KeyLength).map (kdf password
    ((List.range a.SaltLength).map rand.byte) a.Iterations a.Memory a.Parallelism a.KeyLength))
    i k (by simpa using hi) hk
  simp [Ne.symm hne]

theorem C5_flipped_key_bit_rejected_witness :
    (sampleService.InRange ∧ sampleService.Positive ∧
      HashPassword sampleKdf sampleEntropy sampleService "pw".toList =
        .ret ("$argon2id$v=19$m=65536,t=3,p=2$BwgJCg$AgMEBQY".toList, none) ∧
      decodeArgonHash "$argon2id$v=19$m=65536,t=3,p=2$BwgJCg$AgMEBQY".toList =
        ⟨some ⟨65536, 3, 2, 4, 5⟩, some [7, 8, 9, 10], some [2, 3, 4, 5, 6], none⟩ ∧
      1 < ([2, 3, 4, 5, 6] : List Byte).length ∧ 6 < 8) ∧
    flipBit [2, 3, 4, 5, 6] 1 6 = [2, 67, 4, 5, 6] ∧
    VerifyPassword sampleKdf sampleService "pw".toList
      (encodeHash 65536 3 2 [7, 8, 9, 10] (flipBit [2, 3, 4, 5, 6] 1 6)) = .ret (false, none) :=
  ⟨⟨by decide, by decide, by decide, by decide, by decide, by decide⟩, by decide,
    C5_flipped_key_bit_rejected sampleKdf sampleEntropy sampleService "pw".toList
      "$argon2id$v=19$m=65536,t=3,p=2$BwgJCg$AgMEBQY".toList ⟨65536, 3, 2, 4, 5⟩
      [7, 8, 9, 10] [2, 3, 4, 5, 6] 1 6 (by decide) (by decide) (by decide) (by decide)
      (by decide) (by decide)⟩

/-- C6: field-count validation.  For every input string, if splitting it on
"$" does not give exactly six fields, then the string does not contain exactly
five "$" characters and `decodeArgonHash` fails with `ErrInvalidHash`,
returning nil parameters, nil salt and nil key. -/
theorem C6_field_count_rejected (s : List Char) (h : (Split s '$').length ≠ 6) :
    s.count '$' ≠ 5 ∧ decodeArgonHash s = ⟨none, none, none, some .ErrInvalidHash⟩ := by
  constructor
  · rw [Split_length] at h; omega
  · unfold decodeArgonHash
    simp only [h, ne_eq, not_false_eq_true, if_true]

theorem C6_field_count_rejected_witness :
    (Split "$argon2id$v=19$m=65536,t=3,p=2$c2FsdA".toList '$').length ≠ 6 ∧
    "$argon2id$v=19$m=65536,t=3,p=2$c2FsdA".toList.count '$' ≠ 5 ∧
    decodeArgonHash "$argon2id$v=19$m=65536,t=3,p=2$c2FsdA".toList =
      ⟨none, none, none, some .ErrInvalidHash⟩ :=
  ⟨by decide, C6_field_count_rejected "$argon2id$v=19$m=65536,t=3,p=2$c2FsdA".toList (by decide)⟩

/-- C7, as stated, fails: a version number that does not fit `int` makes
`fmt.Sscanf` fail with a range error, which `decodeArgonHash` returns instead
of `ErrIncompatibleVersion`. -/
theorem C7_counterexample :
    Split "$argon2id$v=9223372036854775808$m=65536,t=3,p=2$c2FsdA$aGFzaA".toList '$' =
      ["".toList, "argon2id".toList, "v=".toList ++ fmtInt 9223372036854775808,
        "m=65536,t=3,p=2".toList, "c2FsdA".toList, "aGFzaA".toList] ∧
    (9223372036854775808 : Int) ≠ 19 ∧
    decodeArgonHash "$argon2id$v=9223372036854775808$m=65536,t=3,p=2$c2FsdA$aGFzaA".toList =
      ⟨none, none, none, some .numErrorRange⟩ := by
  refine ⟨by decide, by decide, by decide⟩

/-- C7, amended: for every six-field input whose third field is `v=<n>` with
`n` a decimal integer that fits a 64-bit `int` and differs from the supported
version 19, `decodeArgonHash` fails with `ErrIncompatibleVersion`, whatever
the other fields contain. -/
theorem C7_version_rejected (s f0 f1 f3 f4 f5 : List Char) (n : Int)
    (hs : Split s '$' = [f0, f1, "v=".toList ++ fmtInt n, f3, f4, f5])
    (hlo : -2 ^ 63 ≤ n) (hhi : n < 2 ^ 63) (hn : n ≠ 19) :
    decodeArgonHash s = ⟨none, none, none, some .ErrIncompatibleVersion⟩ := by
  unfold decodeArgonHash
  simp only [hs, List.length_cons, List.length_nil, List.getD_cons_zero, List.getD_cons_succ]
  rw [SscanfVersion_fmtInt n hlo hhi]
  simp [argon2Version, hn]

theorem C7_version_rejected_witness :
    (Split "$argon2id$v=99$m=65536,t=3,p=2$c2FsdA$aGFzaA".toList '$' =
        ["".toList, "argon2id".toList, "v=".toList ++ fmtInt 99, "m=65536,t=3,p=2".toList,
          "c2FsdA".toList, "aGFzaA".toList] ∧
      -2 ^ 63 ≤ (99 : Int) ∧ (99 : Int) < 2 ^ 63 ∧ (99 : Int) ≠ 19) ∧
    decodeArgonHash "$argon2id$v=99$m=65536,t=3,p=2$c2FsdA$aGFzaA".toList =
      ⟨none, none, none, some .ErrIncompatibleVersion⟩ :=
  ⟨⟨by decide, by decide, by decide, by decide⟩,
    C7_version_rejected "$argon2id$v=99$m=65536,t=3,p=2$c2FsdA$aGFzaA".toList
      "".toList "argon2id".toList "m=65536,t=3,p=2".toList "c2FsdA".toList "aGFzaA".toList 99
      (by decide) (by decide) (by decide) (by decide)⟩

/-- C8, as stated, fails: a parameter value of 0 is accepted (no error at
all); so is a field with a blank before a number, a leading zero and text
after the last number; and a non-numeric value is rejected with the error of
`fmt.Sscanf`, not with `ErrInvalidHash`. -/
theorem C8_counterexample :
    decodeArgonHash "$argon2id$v=19$m=0,t=3,p=2$c2FsdA$aGFzaA".toList =
      ⟨some ⟨0, 3, 2, 4, 4⟩, some [115, 97, 108, 116], some [104, 97, 115, 104], none⟩ ∧
    decodeArgonHash "$argon2id$v=19$m= 65536,t=03,p=2junk$c2FsdA$aGFzaA".toList =
      ⟨some ⟨65536, 3, 2, 4, 4⟩, some [115, 97, 108, 116], some [104, 97, 115, 104], none⟩ ∧
    decodeArgonHash "$argon2id$v=19$m=abc,t=3,p=2$c2FsdA$aGFzaA".toList =
      ⟨none, none, none, some (.scanError .expectedInteger)⟩ := by
  refine ⟨by decide, by decide, by decide⟩

/-- C8, amended.  Say that a field *scans* when, within its first 2^30 runes,
it begins with `m=`, a number, `,t=`, a number, `,p=` and a number that is
not followed by a further digit, where a number is a non-empty run of decimal
digits that may be preceded by white space other than a line feed, the first
two numbers fit `uint32` and the third fits `uint8` (`ParamsField`); zero,
leading zeros, white space before a number and any text after the third
number are allowed.  For every six-field
input with the supported version: if the fourth field does not scan (a
non-numeric or missing value, a missing or misplaced key, a value out of
range), `decodeArgonHash` fails, returning nil results and the error of
`fmt.Sscanf`, which is neither `ErrInvalidHash` nor `ErrIncompatibleVersion`;
and if it scans, with values `m`, `t`, `p`, the parameter field is accepted:
`decodeArgonHash` either succeeds with these three values or fails on a
base64 field. -/
theorem C8_params_field_rejected (s f0 f1 f2 f3 f4 f5 : List Char)
    (hs : Split s '$' = [f0, f1, f2, f3, f4, f5])
    (hv : SscanfVersion f2 = .ok argon2Version) :
    ((¬ ∃ m t p, ParamsField (f3.take hugeWid) m t p) →
      ∃ e, decodeArgonHash s = ⟨none, none, none, some e⟩ ∧ SscanfParams f3 = .error e ∧
        e.fromScanner = true ∧ e ≠ .ErrInvalidHash ∧ e ≠ .ErrIncompatibleVersion) ∧
    (∀ m t p, ParamsField (f3.take hugeWid) m t p →
      SscanfParams f3 = .ok (m, t, p) ∧
      (decodeArgonHash s = ⟨none, none, none, some .corruptInputError⟩ ∨
        ∃ salt key, decodeArgonHash s =
          ⟨some ⟨m, t, p, salt.length % 2 ^ 32, key.length % 2 ^ 32⟩,
            some salt, some key, none⟩)) := by
  constructor
  · intro hp
    cases hsc : SscanfParams f3 with
    | ok r =>
      obtain ⟨m, t, p⟩ := r
      exact absurd ⟨m, t, p, SscanfParams_inv f3 m t p hsc⟩ hp
    | error e =>
      have hfs := SscanfParams_error f3 e hsc
      refine ⟨e, ?_, rfl, hfs, fromScanner_ne e hfs⟩
      rw [decodeArgonHash_of_fields s f0 f1 f2 f3 f4 f5 hs, hv]
      simp only []
      rw [if_neg (by simp), hsc]
  · intro m t p hp
    have hsc := SscanfParams_of_ParamsField f3 m t p hp
    refine ⟨hsc, ?_⟩
    rw [decodeArgonHash_of_fields s f0 f1 f2 f3 f4 f5 hs, hv]
    simp only []
    rw [if_neg (by simp), hsc]
    simp only []
    cases h4 : DecodeString f4 with
    | error e => left; rw [DecodeString_error f4 e h4]
    | ok salt =>
      simp only []
      cases h5 : DecodeString f5 with
      | error e => left; rw [DecodeString_error f5 e h5]
      | ok key => right; exact ⟨salt, key, rfl⟩

theorem C8_params_field_rejected_witness :
    (Split "$argon2id$v=19$m=65536,p=2$c2FsdA$aGFzaA".toList '$' =
        ["".toList, "argon2id".toList, "v=19".toList, "m=65536,p=2".toList,
          "c2FsdA".toList, "aGFzaA".toList] ∧
      SscanfVersion "v=19".toList = .ok argon2Version) ∧
    (¬ ∃ m t p, ParamsField ("m=65536,p=2".toList.take hugeWid) m t p) ∧
    (∃ e, decodeArgonHash "$argon2id$v=19$m=65536,p=2$c2FsdA$aGFzaA".toList =
        ⟨none, none, none, some e⟩ ∧
      SscanfParams "m=65536,p=2".toList = .error e ∧
      e.fromScanner = true ∧ e ≠ .ErrInvalidHash ∧ e ≠ .ErrIncompatibleVersion) ∧
    (Split "$argon2id$v=19$m= 65536,t=03,p=2junk$c2FsdA$aGFzaA".toList '$' =
        ["".toList, "argon2id".toList, "v=19".toList, "m= 65536,t=03,p=2junk".toList,
          "c2FsdA".toList, "aGFzaA".toList] ∧
      ParamsField ("m= 65536,t=03,p=2junk".toList.take hugeWid) 65536 3 2) ∧
    (SscanfParams "m= 65536,t=03,p=2junk".toList = .ok (65536, 3, 2) ∧
      (decodeArgonHash "$argon2id$v=19$m= 65536,t=03,p=2junk$c2FsdA$aGFzaA".toList =
          ⟨none, none, none, some .corruptInputError⟩ ∨
        ∃ salt key,
          decodeArgonHash "$argon2id$v=19$m= 65536,t=03,p=2junk$c2FsdA$aGFzaA".toList =
            ⟨some ⟨65536, 3, 2, salt.length % 2 ^ 32, key.length % 2 ^ 32⟩,
              some salt, some key, none⟩)) :=
  have hno : ¬ ∃ m t p, ParamsField ("m=65536,p=2".toList.take hugeWid) m t p :=
    fun ⟨m, t, p, h⟩ => by
      have h1 := SscanfParams_of_ParamsField _ m t p h
      have h2 : SscanfParams "m=65536,p=2".toList =
        .error (.scanError .inputDoesNotMatchFormat) := by decide
      rw [h2] at h1
      exact absurd h1 (by simp)
  have hyes : ParamsField ("m= 65536,t=03,p=2junk".toList.take hugeWid) 65536 3 2 :=
    SscanfParams_inv _ _ _ _ (by decide)
  ⟨⟨by decide, by decide⟩, hno,
    (C8_params_field_rejected "$argon2id$v=19$m=65536,p=2$c2FsdA$aGFzaA".toList
      "".toList "argon2id".toList "v=19".toList "m=65536,p=2".toList "c2FsdA".toList
      "aGFzaA".toList (by decide) (by decide)).1 hno,
    ⟨by decide, hyes⟩,
    (C8_params_field_rejected "$argon2id$v=19$m= 65536,t=03,p=2junk$c2FsdA$aGFzaA".toList
      "".toList "argon2id".toList "v=19".toList "m= 65536,t=03,p=2junk".toList
      "c2FsdA".toList "aGFzaA".toList (by decide) (by decide)).2 65536 3 2 hyes⟩

/-- C9, as stated, fails: a salt field with padding characters is rejected
with `base64.CorruptInputError`, not with `ErrInvalidHash`; and a line feed,
a character outside the alphabet, is skipped by the decoder, so the input is
accepted. -/
theorem C9_counterexample :
    decodeArgonHash "$argon2id$v=19$m=65536,t=3,p=2$c2FsdA==$aGFzaA".toList =
      ⟨none, none, none, some .corruptInputError⟩ ∧
    '\n' ∉ encodeStd ∧
    decodeArgonHash "$argon2id$v=19$m=65536,t=3,p=2$c2Fs\ndA$aGFzaA".toList =
      ⟨some ⟨65536, 3, 2, 4, 4⟩, some [115, 97, 108, 116], some [104, 97, 115, 104], none⟩ := by
  refine ⟨by decide, by decide, by decide⟩

/-- C9, amended: for every six-field input with the supported version and a
well-formed parameter field, if the salt field or the key field, CR and LF
disregarded, contains a character outside the standard base64 alphabet (the
padding character "=" included) or is otherwise not a valid unpadded strict
base64 string, `decodeArgonHash` fails, returning nil results and
`base64.CorruptInputError`, which is not `ErrInvalidHash`. -/
theorem C9_base64_rejected (s f0 f1 f2 f3 f4 f5 : List Char) (m t p : Nat)
    (hs : Split s '$' = [f0, f1, f2, f3, f4, f5])
    (hv : SscanfVersion f2 = .ok argon2Version)
    (hp : ParamsField (f3.take hugeWid) m t p)
    (hb : ¬ ValidRawStd f4 ∨ ¬ ValidRawStd f5) :
    decodeArgonHash s = ⟨none, none, none, some .corruptInputError⟩ ∧
      GoError.corruptInputError ≠ GoError.ErrInvalidHash := by
  refine ⟨?_, by decide⟩
  have hsp := SscanfParams_of_ParamsField f3 m t p hp
  unfold decodeArgonHash
  simp only [hs, List.length_cons, List.length_nil, List.getD_cons_zero, List.getD_cons_succ]
  rw [hv, hsp]
  simp only [ne_eq, not_true_eq_false, if_false]
  cases h4 : DecodeString f4 with
  | error e => rw [DecodeString_error f4 e h4]
  | ok salt =>
    simp only []
    have hv4 : ValidRawStd f4 := (DecodeString_ok_iff f4).1 ⟨salt, h4⟩
    have hn5 : ¬ ValidRawStd f5 := by tauto
    rw [DecodeString_invalid f5 hn5]

theorem C9_base64_rejected_witness :
    (Split "$argon2id$v=19$m=65536,t=3,p=2$c2FsdA$aGF!aA".toList '$' =
        ["".toList, "argon2id".toList, "v=19".toList, "m=65536,t=3,p=2".toList,
          "c2FsdA".toList, "aGF!aA".toList] ∧
      SscanfVersion "v=19".toList = .ok argon2Version ∧
      ParamsField ("m=65536,t=3,p=2".toList.take hugeWid) 65536 3 2 ∧
      (¬ ValidRawStd "c2FsdA".toList ∨ ¬ ValidRawStd "aGF!aA".toList)) ∧
    (decodeArgonHash "$argon2id$v=19$m=65536,t=3,p=2$c2FsdA$aGF!aA".toList =
        ⟨none, none, none, some .corruptInputError⟩ ∧
      GoError.corruptInputError ≠ GoError.ErrInvalidHash) :=
  have hp : ParamsField ("m=65536,t=3,p=2".toList.take hugeWid) 65536 3 2 :=
    SscanfParams_inv _ _ _ _ (by decide)
  have hb : ¬ ValidRawStd "c2FsdA".toList ∨ ¬ ValidRawStd "aGF!aA".toList :=
    Or.inr (fun h => by
      have h1 := h.1 '!' (by decide)
      revert h1
      decide)
  ⟨⟨by decide, by decide, hp, hb⟩,
    C9_base64_rejected "$argon2id$v=19$m=65536,t=3,p=2$c2FsdA$aGF!aA".toList
      "".toList "argon2id".toList "v=19".toList "m=65536,t=3,p=2".toList "c2FsdA".toList
      "aGF!aA".toList 65536 3 2 (by decide) (by decide) hp hb⟩

/-- C10, as stated, fails: on the input of the claim, whose salt field is
empty, `decodeArgonHash` succeeds and returns a salt of zero bytes (an empty,
non-nil slice) with `SaltLength = 0`. -/
theorem C10_counterexample :
    decodeArgonHash "$argon2id$v=19$m=65536,t=3,p=2$$aGFzaA".toList =
      ⟨some ⟨65536, 3, 2, 0, 4⟩, some [], some [104, 97, 115, 104], none⟩ := by
  decide

/-- C10, amended: `decodeArgonHash` does not require a salt or a key of at
least one byte.  For every six-field input with the supported version and a
well-formed parameter field whose salt field and key field decode, one of
them to zero bytes (as an empty field does), `decodeArgonHash` succeeds: it
returns a nil error, that salt and that key, and a parameter set with
`SaltLength = len(salt)` and `KeyLength = len(key)` (as `uint32`), so with a
length of 0 for the empty one. -/
theorem C10_empty_salt_or_key_accepted (s f0 f1 f2 f3 f4 f5 : List Char) (m t p : Nat)
    (salt key : List Byte)
    (hs : Split s '$' = [f0, f1, f2, f3, f4, f5])
    (hv : SscanfVersion f2 = .ok argon2Version)
    (hp : ParamsField (f3.take hugeWid) m t p)
    (h4 : DecodeString f4 = .ok salt) (h5 : DecodeString f5 = .ok key)
    (hz : salt = [] ∨ key = []) :
    decodeArgonHash s =
        ⟨some ⟨m, t, p, salt.length % 2 ^ 32, key.length % 2 ^ 32⟩, some salt, some key, none⟩ ∧
      (salt.length % 2 ^ 32 = 0 ∨ key.length % 2 ^ 32 = 0) ∧
      DecodeString [] = .ok [] := by
  refine ⟨?_, ?_, by decide⟩
  · have hsp := SscanfParams_of_ParamsField f3 m t p hp
    unfold decodeArgonHash
    simp only [hs, List.length_cons, List.length_nil, List.getD_cons_zero, List.getD_cons_succ]
    rw [hv, hsp, h4, h5]
    simp
  · rcases hz with h | h
    · left; rw [h]; rfl
    · right; rw [h]; rfl

theorem C10_empty_salt_or_key_accepted_witness :
    (Split "$argon2id$v=19$m=65536,t=3,p=2$c2FsdA$".toList '$' =
        ["".toList, "argon2id".toList, "v=19".toList, "m=65536,t=3,p=2".toList,
          "c2FsdA".toList, "".toList] ∧
      SscanfVersion "v=19".toList = .ok argon2Version ∧
      ParamsField ("m=65536,t=3,p=2".toList.take hugeWid) 65536 3 2 ∧
      DecodeString "c2FsdA".toList = .ok [115, 97, 108, 116] ∧
      DecodeString "".toList = .ok [] ∧
      (([115, 97, 108, 116] : List Byte) = [] ∨ ([] : List Byte) = [])) ∧
    (decodeArgonHash "$argon2id$v=19$m=65536,t=3,p=2$c2FsdA$".toList =
        ⟨some ⟨65536, 3, 2, ([115, 97, 108, 116] : List Byte).length % 2 ^ 32,
          ([] : List Byte).length % 2 ^ 32⟩, some [115, 97, 108, 116], some [], none⟩ ∧
      (([115, 97, 108, 116] : List Byte).length % 2 ^ 32 = 0 ∨
        ([] : List Byte).length % 2 ^ 32 = 0) ∧
      DecodeString [] = .ok []) :=
  have hp : ParamsField ("m=65536,t=3,p=2".toList.take hugeWid) 65536 3 2 :=
    SscanfParams_inv _ _ _ _ (by decide)
  ⟨⟨by decide, by decide, hp, by decide, by decide, by decide⟩,
    C10_empty_salt_or_key_accepted "$argon2id$v=19$m=65536,t=3,p=2$c2FsdA$".toList
      "".toList "argon2id".toList "v=19".toList "m=65536,t=3,p=2".toList "c2FsdA".toList
      "".toList 65536 3 2 [115, 97, 108, 116] [] (by decide) (by decide) hp (by decide)
      (by decide) (by decide)⟩

/-- C11: decode failures are surfaced by verification as errors.  For every
password and every encoded hash, `VerifyPassword` returns a non-nil error `e`
exactly when `decodeArgonHash` fails with `e`, and then the match value is
false; the two package errors are different values. -/
theorem C11_decode_error_surfaced (kdf : Kdf) (a : Argon) (password encodedHash : List Char)
    (mtch : Bool) (e : GoError) :
    (VerifyPassword kdf a password encodedHash = .ret (mtch, some e) ↔
      ((decodeArgonHash encodedHash).err = some e ∧ mtch = false)) ∧
    GoError.ErrInvalidHash ≠ GoError.ErrIncompatibleVersion := by
  refine ⟨?_, by decide⟩
  cases herr : (decodeArgonHash encodedHash).err with
  | some e' =>
    rw [VerifyPassword_of_error kdf a password encodedHash e' herr]
    simp only [Run.ret.injEq, Prod.mk.injEq, Option.some.injEq]
    constructor
    · rintro ⟨h1, h2⟩; exact ⟨h2, h1.symm⟩
    · rintro ⟨h1, h2⟩; exact ⟨h2.symm, h1⟩
  | none =>
    obtain ⟨params, salt, key, -, hv⟩ := VerifyPassword_of_ok kdf a password encodedHash herr
    rw [hv]
    constructor
    · intro h
      cases hk : IDKey kdf password salt params.Iterations params.Memory params.Parallelism
          params.KeyLength with
      | panic => rw [hk] at h; simp at h
      | ret otherHash =>
        rw [hk] at h
        simp only [] at h
        split_ifs at h <;> simp at h
    · rintro ⟨h1, -⟩; simp at h1

theorem C11_decode_error_surfaced_witness :
    (VerifyPassword sampleKdf sampleService "pw".toList
        "$argon2id$v=99$m=65536,t=3,p=2$c2FsdA$aGFzaA".toList =
          .ret (false, some .ErrIncompatibleVersion) ↔
      ((decodeArgonHash "$argon2id$v=99$m=65536,t=3,p=2$c2FsdA$aGFzaA".toList).err =
          some .ErrIncompatibleVersion ∧ false = false)) ∧
    GoError.ErrInvalidHash ≠ GoError.ErrIncompatibleVersion :=
  C11_decode_error_surfaced sampleKdf sampleService "pw".toList
    "$argon2id$v=99$m=65536,t=3,p=2$c2FsdA$aGFzaA".toList false .ErrIncompatibleVersion

/-- C12 fails on the code: on a stored string with `t=0`, and on one with
`p=0`, the decode succeeds and `VerifyPassword` calls `argon2.IDKey` with an
iteration count, or a parallelism, of 0, which panics; this holds for every
password, service and mixing function. -/
theorem C12_verify_panics_on_zero_cost (kdf : Kdf) (a : Argon) (password : List Char) :
    (decodeArgonHash "$argon2id$v=19$m=65536,t=0,p=2$c2FsdA$aGFzaA".toList).err = none ∧
    VerifyPassword kdf a password
      "$argon2id$v=19$m=65536,t=0,p=2$c2FsdA$aGFzaA".toList = .panic ∧
    (decodeArgonHash "$argon2id$v=19$m=65536,t=3,p=0$c2FsdA$aGFzaA".toList).err = none ∧
    VerifyPassword kdf a password
      "$argon2id$v=19$m=65536,t=3,p=0$c2FsdA$aGFzaA".toList = .panic := by
  have h1 : decodeArgonHash "$argon2id$v=19$m=65536,t=0,p=2$c2FsdA$aGFzaA".toList =
      ⟨some ⟨65536, 0, 2, 4, 4⟩, some [115, 97, 108, 116], some [104, 97, 115, 104], none⟩ := by
    decide
  have h2 : decodeArgonHash "$argon2id$v=19$m=65536,t=3,p=0$c2FsdA$aGFzaA".toList =
      ⟨some ⟨65536, 3, 0, 4, 4⟩, some [115, 97, 108, 116], some [104, 97, 115, 104], none⟩ := by
    decide
  refine ⟨by rw [h1], ?_, by rw [h2], ?_⟩
  · unfold VerifyPassword
    rw [h1]
    simp [IDKey]
  · unfold VerifyPassword
    rw [h2]
    simp [IDKey]

/-- C13: canonical output format.  For every password and service, whenever
`HashPassword` succeeds its result is exactly
`$argon2id$v=19$m=<Memory>,t=<Iterations>,p=<Parallelism>$<salt-b64>$<key-b64>`
with the three parameters in decimal (their digits give back the values) and
both binary fields made of characters of the standard base64 alphabet only
(hence without padding); it contains exactly five "$", and splitting it on
"$" gives exactly six fields, the first empty and the second `argon2id`. -/
theorem C13_canonical_output (kdf : Kdf) (rand : Entropy) (a : Argon)
    (password h : List Char) (hh : HashPassword kdf rand a password = .ret (h, none)) :
    ∃ (salt key : List Byte) (b64Salt b64Hash : List Char),
      b64Salt = EncodeToString salt ∧ b64Hash = EncodeToString key ∧
      h = "$argon2id$v=19$m=".toList ++ fmtDecimal a.Memory ++ ",t=".toList ++
        fmtDecimal a.Iterations ++ ",p=".toList ++ fmtDecimal a.Parallelism ++
        "$".toList ++ b64Salt ++ "$".toList ++ b64Hash ∧
      (IsNumber (fmtDecimal a.Memory) ∧ decimalValue (fmtDecimal a.Memory) = a.Memory) ∧
      (IsNumber (fmtDecimal a.Iterations) ∧
        decimalValue (fmtDecimal a.Iterations) = a.Iterations) ∧
      (IsNumber (fmtDecimal a.Parallelism) ∧
        decimalValue (fmtDecimal a.Parallelism) = a.Parallelism) ∧
      (∀ c ∈ b64Salt, c ∈ encodeStd) ∧ (∀ c ∈ b64Hash, c ∈ encodeStd) ∧ '=' ∉ encodeStd ∧
      h.count '$' = 5 ∧
      Split h '$' = [[], "argon2id".toList, "v=19".toList,
        "m=".toList ++ fmtDecimal a.Memory ++ ",t=".toList ++ fmtDecimal a.Iterations ++
          ",p=".toList ++ fmtDecimal a.Parallelism, b64Salt, b64Hash] := by
  obtain ⟨-, -, -, rfl⟩ := HashPassword_ret kdf rand a password h hh
  have hsplit := Split_sprintfHash a.Memory a.Iterations a.Parallelism _ _
    (EncodeToString_no_sep ((List.range a.SaltLength).map rand.byte))
    (EncodeToString_no_sep ((List.range a.KeyLength).map (kdf password
      ((List.range a.SaltLength).map rand.byte) a.Iterations a.Memory a.Parallelism
      a.KeyLength)))
  refine ⟨(List.range a.SaltLength).map rand.byte,
    (List.range a.KeyLength).map (kdf password ((List.range a.SaltLength).map rand.byte)
      a.Iterations a.Memory a.Parallelism a.KeyLength),
    _, _, rfl, rfl, ?_, ⟨⟨fmtDecimal_ne_nil _, fmtDecimal_digits _⟩,
    decimalValue_fmtDecimal _⟩, ⟨⟨fmtDecimal_ne_nil _, fmtDecimal_digits _⟩,
    decimalValue_fmtDecimal _⟩, ⟨⟨fmtDecimal_ne_nil _, fmtDecimal_digits _⟩,
    decimalValue_fmtDecimal _⟩, EncodeToString_mem _, EncodeToString_mem _, by decide, ?_, ?_⟩
  · have h19 : fmtDecimal argon2Version.toNat = "19".toList := by decide
    simp [encodeHash, sprintfHash, h19]
  · apply count_sep_of_Split
    unfold encodeHash
    rw [hsplit]
    rfl
  · unfold encodeHash
    exact hsplit

theorem C13_canonical_output_witness :
    HashPassword sampleKdf sampleEntropy sampleService "pw".toList =
        .ret ("$argon2id$v=19$m=65536,t=3,p=2$BwgJCg$AgMEBQY".toList, none) ∧
    ∃ (salt key : List Byte) (b64Salt b64Hash : List Char),
      b64Salt = EncodeToString salt ∧ b64Hash = EncodeToString key ∧
      "$argon2id$v=19$m=65536,t=3,p=2$BwgJCg$AgMEBQY".toList =
        "$argon2id$v=19$m=".toList ++ fmtDecimal sampleService.Memory ++ ",t=".toList ++
        fmtDecimal sampleService.Iterations ++ ",p=".toList ++
        fmtDecimal sampleService.Parallelism ++ "$".toList ++ b64Salt ++ "$".toList ++
        b64Hash ∧
      (IsNumber (fmtDecimal sampleService.Memory) ∧
        decimalValue (fmtDecimal sampleService.Memory) = sampleService.Memory) ∧
      (IsNumber (fmtDecimal sampleService.Iterations) ∧
        decimalValue (fmtDecimal sampleService.Iterations) = sampleService.Iterations) ∧
      (IsNumber (fmtDecimal sampleService.Parallelism) ∧
        decimalValue (fmtDecimal sampleService.Parallelism) = sampleService.Parallelism) ∧
      (∀ c ∈ b64Salt, c ∈ encodeStd) ∧ (∀ c ∈ b64Hash, c ∈ encodeStd) ∧ '=' ∉ encodeStd ∧
      "$argon2id$v=19$m=65536,t=3,p=2$BwgJCg$AgMEBQY".toList.count '$' = 5 ∧
      Split "$argon2id$v=19$m=65536,t=3,p=2$BwgJCg$AgMEBQY".toList '$' =
        [[], "argon2id".toList, "v=19".toList,
          "m=".toList ++ fmtDecimal sampleService.Memory ++ ",t=".toList ++
            fmtDecimal sampleService.Iterations ++ ",p=".toList ++
            fmtDecimal sampleService.Parallelism, b64Salt, b64Hash] :=
  ⟨by decide,
    C13_canonical_output sampleKdf sampleEntropy sampleService "pw".toList _ (by decide)⟩

/-- C14, as stated, fails: a service with `SaltLength = 0` is not rejected;
`HashPassword` returns a nil error and an encoded hash whose salt field is
empty. -/
theorem C14_counterexample :
    saltlessService.SaltLength = 0 ∧
    HashPassword sampleKdf sampleEntropy saltlessService "pw".toList =
      .ret ("$argon2id$v=19$m=65536,t=3,p=2$$AgMEBQY".toList, none) := by
  constructor <;> decide

/-- C14, amended: `HashPassword` does not check `SaltLength`.  For every
password and every service with `SaltLength = 0` and positive `Iterations`,
`Parallelism` and `KeyLength`, when the entropy read succeeds `HashPassword`
returns a nil error and an encoded hash whose salt field is empty, the key
being derived from the empty salt. -/
theorem C14_zero_salt_length_accepted (kdf : Kdf) (rand : Entropy) (a : Argon)
    (password : List Char) (hs : a.SaltLength = 0) (ht : 1 ≤ a.Iterations)
    (hp : 1 ≤ a.Parallelism) (hk : 1 ≤ a.KeyLength) (hr : rand.err = none) :
    ∃ key : List Byte,
      IDKey kdf password [] a.Iterations a.Memory a.Parallelism a.KeyLength = .ret key ∧
      key.length = a.KeyLength ∧ key ≠ [] ∧
      HashPassword kdf rand a password =
        .ret (encodeHash a.Memory a.Iterations a.Parallelism [] key, none) ∧
      Split (encodeHash a.Memory a.Iterations a.Parallelism [] key) '$' =
        [[], "argon2id".toList, "v=19".toList,
          "m=".toList ++ fmtDecimal a.Memory ++ ",t=".toList ++ fmtDecimal a.Iterations ++
            ",p=".toList ++ fmtDecimal a.Parallelism, [], EncodeToString key] := by
  have hid := IDKey_ret kdf password [] a.Iterations a.Memory a.Parallelism a.KeyLength ht hp
    hk
  have hread : (randRead rand a.SaltLength).2 = none := by
    simp [randRead, hr]
  refine ⟨_, hid, by simp, ?_, ?_, ?_⟩
  · intro h0
    have := congrArg List.length h0
    simp at this
    omega
  · unfold HashPassword
    rw [generateSalt_eq, hread]
    simp only [hs, List.range_zero, List.map_nil]
    rw [hid]
  · unfold encodeHash
    rw [Split_sprintfHash _ _ _ _ _ (by simp [EncodeToString]) (EncodeToString_no_sep _)]
    rfl

theorem C14_zero_salt_length_accepted_witness :
    (saltlessService.SaltLength = 0 ∧ 1 ≤ saltlessService.Iterations ∧
      1 ≤ saltlessService.Parallelism ∧ 1 ≤ saltlessService.KeyLength ∧
      sampleEntropy.err = none) ∧
    ∃ key : List Byte,
      IDKey sampleKdf "pw".toList [] saltlessService.Iterations saltlessService.Memory
        saltlessService.Parallelism saltlessService.KeyLength = .ret key ∧
      key.length = saltlessService.KeyLength ∧ key ≠ [] ∧
      HashPassword sampleKdf sampleEntropy saltlessService "pw".toList =
        .ret (encodeHash saltlessService.Memory saltlessService.Iterations
          saltlessService.Parallelism [] key, none) ∧
      Split (encodeHash saltlessService.Memory saltlessService.Iterations
          saltlessService.Parallelism [] key) '$' =
        [[], "argon2id".toList, "v=19".toList,
          "m=".toList ++ fmtDecimal saltlessService.Memory ++ ",t=".toList ++
            fmtDecimal saltlessService.Iterations ++ ",p=".toList ++
            fmtDecimal saltlessService.Parallelism, [], EncodeToString key] :=
  ⟨⟨by decide, by decide, by decide, by decide, by decide⟩,
    C14_zero_salt_length_accepted sampleKdf sampleEntropy saltlessService "pw".toList
      (by decide) (by decide) (by decide) (by decide) (by decide)⟩

/-- C15: `HashPassword` fails only by propagating a failure of the salt
generator.  For every password and service, `HashPassword` returns the hash
`h` with a non-nil error `e` exactly when `generateSalt(SaltLength)` failed
with `e`, and then `h` is the empty string.  `generateSalt(n)` fails exactly
when the entropy read fails: it then returns a nil slice and the error of the
read; and when the read succeeds it returns a nil error and the buffer the
read filled, which has exactly `n` bytes. -/
theorem C15_hash_error_is_salt_error (kdf : Kdf) (rand : Entropy) (a : Argon)
    (password h : List Char) (e : GoError) (n : Nat) :
    (HashPassword kdf rand a password = .ret (h, some e) ↔
      ((generateSalt rand a.SaltLength).2 = some e ∧ h = [])) ∧
    ((randRead rand n).2 = some e ↔ generateSalt rand n = (none, some e)) ∧
    ((generateSalt rand n).2 = some e ↔ (randRead rand n).2 = some e) ∧
    ((randRead rand n).2 = none ↔
      (generateSalt rand n = (some (randRead rand n).1, none) ∧
        (randRead rand n).1.length = n)) := by
  have hlen : (randRead rand n).1.length = n := by simp [randRead]
  have hbuf : (randRead rand n).1 = (List.range n).map rand.byte := rfl
  refine ⟨?_, ?_, ?_, ?_⟩
  · unfold HashPassword
    rw [generateSalt_eq]
    cases hre : (randRead rand a.SaltLength).2 with
    | some e' =>
      simp only [Run.ret.injEq, Prod.mk.injEq, Option.some.injEq]
      constructor
      · rintro ⟨h1, h2⟩; exact ⟨h2, h1.symm⟩
      · rintro ⟨h1, h2⟩; exact ⟨h2.symm, h1⟩
    | none =>
      simp only []
      constructor
      · intro hh
        cases hk : IDKey kdf password ((List.range a.SaltLength).map rand.byte) a.Iterations
            a.Memory a.Parallelism a.KeyLength with
        | panic => rw [hk] at hh; simp at hh
        | ret key => rw [hk] at hh; simp at hh
      · rintro ⟨h1, -⟩; simp at h1
  · rw [generateSalt_eq]
    cases hre : (randRead rand n).2 <;> simp
  · rw [generateSalt_eq]
    cases hre : (randRead rand n).2 <;> simp
  · rw [generateSalt_eq, hbuf]
    cases hre : (randRead rand n).2 <;> simp

theorem C15_hash_error_is_salt_error_witness :
    ((HashPassword sampleKdf failingEntropy sampleService "pw".toList =
        .ret ([], some (.entropyError 5)) ↔
      ((generateSalt failingEntropy sampleService.SaltLength).2 = some (.entropyError 5) ∧
        ([] : List Char) = [])) ∧
    ((randRead failingEntropy 4).2 = some (.entropyError 5) ↔
      generateSalt failingEntropy 4 = (none, some (.entropyError 5))) ∧
    ((generateSalt failingEntropy 4).2 = some (.entropyError 5) ↔
      (randRead failingEntropy 4).2 = some (.entropyError 5)) ∧
    ((randRead failingEntropy 4).2 = none ↔
      (generateSalt failingEntropy 4 = (some (randRead failingEntropy 4).1, none) ∧
        (randRead failingEntropy 4).1.length = 4))) ∧
    ((randRead failingEntropy 4).2 = some (.entropyError 5) ∧
      generateSalt failingEntropy 4 = (none, some (.entropyError 5)) ∧
      HashPassword sampleKdf failingEntropy sampleService "pw".toList =
        .ret ([], some (.entropyError 5))) ∧
    ((randRead sampleEntropy 4).2 = none ∧
      generateSalt sampleEntropy 4 = (some [7, 8, 9, 10], none) ∧
      (generateSalt sampleEntropy 4 = (some (randRead sampleEntropy 4).1, none) ∧
        (randRead sampleEntropy 4).1.length = 4)) :=
  ⟨C15_hash_error_is_salt_error sampleKdf failingEntropy sampleService "pw".toList []
      (.entropyError 5) 4,
    ⟨by decide, by decide, by decide⟩,
    ⟨by decide, by decide,
      (C15_hash_error_is_salt_error sampleKdf sampleEntropy sampleService "pw".toList []
        (.entropyError 5) 4).2.2.2.1 (by decide)⟩⟩

/-- C16, as stated, fails: `m = 4294967296` does not fit the `uint32` field
and `p = 256` does not fit the `uint8` field, so `fmt.Sscanf` reports an
overflow and `decodeArgonHash` fails. -/
theorem C16_counterexample :
    sprintfHash argon2Version.toNat 4294967296 3 2 "c2FsdA".toList "aGFzaA".toList =
      "$argon2id$v=19$m=4294967296,t=3,p=2$c2FsdA$aGFzaA".toList ∧
    decodeArgonHash "$argon2id$v=19$m=4294967296,t=3,p=2$c2FsdA$aGFzaA".toList =
      ⟨none, none, none, some (.scanError .unsignedIntegerOverflow)⟩ ∧
    decodeArgonHash "$argon2id$v=19$m=65536,t=3,p=256$c2FsdA$aGFzaA".toList =
      ⟨none, none, none, some (.scanError .unsignedIntegerOverflow)⟩ := by
  refine ⟨by decide, by decide, by decide⟩

/-- C16, amended: decode is a format validator, not a policy enforcer.  For
every string of the canonical form with the supported version, valid unpadded
base64 salt and key fields, and decimal integers `m` and `t` that fit
`uint32` and `p` that fits `uint8`, whatever their magnitude within these
types (0 included), `decodeArgonHash` succeeds and returns these values with
the decoded salt and key. -/
theorem C16_decode_accepts_any_magnitude (m t p : Nat) (f4 f5 : List Char)
    (hm : m < 2 ^ 32) (ht : t < 2 ^ 32) (hp : p < 2 ^ 8)
    (h4 : ValidRawStd f4) (h5 : ValidRawStd f5) :
    ∃ salt key, DecodeString f4 = .ok salt ∧ DecodeString f5 = .ok key ∧
      decodeArgonHash (sprintfHash argon2Version.toNat m t p f4 f5) =
        ⟨some ⟨m, t, p, salt.length % 2 ^ 32, key.length % 2 ^ 32⟩,
          some salt, some key, none⟩ := by
  obtain ⟨salt, hsalt⟩ := (DecodeString_ok_iff f4).2 h4
  obtain ⟨key, hkey⟩ := (DecodeString_ok_iff f5).2 h5
  refine ⟨salt, key, hsalt, hkey, ?_⟩
  have hsplit := Split_sprintfHash m t p f4 f5 (ValidRawStd_no_sep f4 h4)
    (ValidRawStd_no_sep f5 h5)
  have hv : SscanfVersion "v=19".toList = .ok 19 := by decide
  rw [decodeArgonHash_of_fields _ _ _ _ _ _ _ hsplit, hv]
  simp only []
  rw [if_neg (by decide), SscanfParams_fmt m t p hm ht hp]
  simp only []
  rw [hsalt]
  simp only []
  rw [hkey]

theorem C16_decode_accepts_any_magnitude_witness :
    ((4294967295 : Nat) < 2 ^ 32 ∧ (0 : Nat) < 2 ^ 32 ∧ (255 : Nat) < 2 ^ 8 ∧
      ValidRawStd "c2FsdA".toList ∧ ValidRawStd "aGFzaA".toList) ∧
    sprintfHash argon2Version.toNat 4294967295 0 255 "c2FsdA".toList "aGFzaA".toList =
      "$argon2id$v=19$m=4294967295,t=0,p=255$c2FsdA$aGFzaA".toList ∧
    ∃ salt key, DecodeString "c2FsdA".toList = .ok salt ∧
      DecodeString "aGFzaA".toList = .ok key ∧
      decodeArgonHash
          (sprintfHash argon2Version.toNat 4294967295 0 255 "c2FsdA".toList "aGFzaA".toList) =
        ⟨some ⟨4294967295, 0, 255, salt.length % 2 ^ 32, key.length % 2 ^ 32⟩,
          some salt, some key, none⟩ :=
  have h4 : ValidRawStd "c2FsdA".toList := (DecodeString_ok_iff _).1 ⟨[115, 97, 108, 116], by decide⟩
  have h5 : ValidRawStd "aGFzaA".toList :=
    (DecodeString_ok_iff _).1 ⟨[104, 97, 115, 104], by decide⟩
  ⟨⟨by decide, by decide, by decide, h4, h5⟩, by decide,
    C16_decode_accepts_any_magnitude 4294967295 0 255 "c2FsdA".toList "aGFzaA".toList
      (by decide) (by decide) (by decide) h4 h5⟩

/-- C18: a hash embeds the parameter set of the service.  For every password
and every service (whose fields fit their types), if `HashPassword` succeeds
with `h`, then `decodeArgonHash(h)` succeeds and returns a parameter set
equal to the service in all five fields, the embedded salt having exactly
`SaltLength` bytes and the embedded key exactly `KeyLength` bytes. -/
theorem C18_hash_embeds_service_parameters (kdf : Kdf) (rand : Entropy) (a : Argon)
    (password h : List Char) (hr : a.InRange)
    (hh : HashPassword kdf rand a password = .ret (h, none)) :
    ∃ salt key : List Byte,
      decodeArgonHash h = ⟨some a, some salt, some key, none⟩ ∧
      salt.length = a.SaltLength ∧ key.length = a.KeyLength := by
  obtain ⟨hm, ht, hp, hs, hk⟩ := hr
  obtain ⟨-, -, -, rfl⟩ := HashPassword_ret kdf rand a password h hh
  refine ⟨(List.range a.SaltLength).map rand.byte,
    (List.range a.KeyLength).map (kdf password ((List.range a.SaltLength).map rand.byte)
      a.Iterations a.Memory a.Parallelism a.KeyLength), ?_, by simp, by simp⟩
  rw [decodeArgonHash_encodeHash _ _ _ _ _ hm ht hp]
  simp only [List.length_map, List.length_range, Nat.mod_eq_of_lt hs, Nat.mod_eq_of_lt hk]

theorem C18_hash_embeds_service_parameters_witness :
    (sampleService.InRange ∧
      HashPassword sampleKdf sampleEntropy sampleService "pw".toList =
        .ret ("$argon2id$v=19$m=65536,t=3,p=2$BwgJCg$AgMEBQY".toList, none)) ∧
    ∃ salt key : List Byte,
      decodeArgonHash "$argon2id$v=19$m=65536,t=3,p=2$BwgJCg$AgMEBQY".toList =
        ⟨some sampleService, some salt, some key, none⟩ ∧
      salt.length = sampleService.SaltLength ∧ key.length = sampleService.KeyLength :=
  ⟨⟨by decide, by decide⟩,
    C18_hash_embeds_service_parameters sampleKdf sampleEntropy sampleService "pw".toList _
      (by decide) (by decide)⟩

/-- C19, as stated, fails: strings with extra characters after the version
and after the last parameter number and with other text in the first two
fields, or with a sign, leading spaces and leading zeros in their numbers,
are accepted, and re-encoding what they decode to gives a different string. -/
theorem C19_counterexample :
    decodeArgonHash "x$argon2i$v=19x$m=65536,t=3,p=2junk$c2FsdA$aGFzaA".toList =
      ⟨some ⟨65536, 3, 2, 4, 4⟩, some [115, 97, 108, 116], some [104, 97, 115, 104], none⟩ ∧
    decodeArgonHash "$argon2id$v=+19$m= 065536,t=03,p=2$c2FsdA$aGFzaA".toList =
      ⟨some ⟨65536, 3, 2, 4, 4⟩, some [115, 97, 108, 116], some [104, 97, 115, 104], none⟩ ∧
    encodeHash 65536 3 2 [115, 97, 108, 116] [104, 97, 115, 104] =
      "$argon2id$v=19$m=65536,t=3,p=2$c2FsdA$aGFzaA".toList ∧
    encodeHash 65536 3 2 [115, 97, 108, 116] [104, 97, 115, 104] ≠
      "x$argon2i$v=19x$m=65536,t=3,p=2junk$c2FsdA$aGFzaA".toList ∧
    encodeHash 65536 3 2 [115, 97, 108, 116] [104, 97, 115, 104] ≠
      "$argon2id$v=+19$m= 065536,t=03,p=2$c2FsdA$aGFzaA".toList := by
  refine ⟨by decide, by decide, by decide, by decide, by decide⟩

/-- C19, amended: for every input `s` on which `decodeArgonHash` succeeds
with `(params, salt, key)`, the canonical re-encoding of `(params, salt,
key)` decodes to exactly the same `(params, salt, key)`; the re-encoding is
the canonical string of `s`, but need not be `s` itself. -/
theorem C19_reencoding_decodes_alike (s : List Char) (params : Argon) (salt key : List Byte)
    (h : decodeArgonHash s = ⟨some params, some salt, some key, none⟩) :
    decodeArgonHash (encodeHash params.Memory params.Iterations params.Parallelism salt key) =
      ⟨some params, some salt, some key, none⟩ := by
  obtain ⟨f0, f1, f2, f3, f4, f5, m, t, p, salt', key', -, -, hp, -, -, ha, hs, hk⟩ :=
    decodeArgonHash_ok_inv s _ _ _ h
  simp only [Option.some.injEq] at ha hs hk
  subst hs hk
  obtain ⟨_, _, _, _, _, _, _, _, _, _, _, _, _, _, _, _, _, _, b1, b2, b3⟩ :=
    SscanfParams_inv f3 m t p hp
  subst ha
  exact decodeArgonHash_encodeHash m t p salt key b1 b2 b3

theorem C19_reencoding_decodes_alike_witness :
    decodeArgonHash "x$argon2i$v=19x$m=65536,t=3,p=2junk$c2FsdA$aGFzaA".toList =
      ⟨some ⟨65536, 3, 2, 4, 4⟩, some [115, 97, 108, 116], some [104, 97, 115, 104], none⟩ ∧
    decodeArgonHash (encodeHash 65536 3 2 [115, 97, 108, 116] [104, 97, 115, 104]) =
      ⟨some ⟨65536, 3, 2, 4, 4⟩, some [115, 97, 108, 116], some [104, 97, 115, 104], none⟩ :=
  ⟨by decide,
    C19_reencoding_decodes_alike
      "x$argon2i$v=19x$m=65536,t=3,p=2junk$c2FsdA$aGFzaA".toList ⟨65536, 3, 2, 4, 4⟩
      [115, 97, 108, 116] [104, 97, 115, 104] (by decide)⟩

/-- C20: `decodeArgonHash` never inspects the first two fields.  For every
six-field input `s` and all strings `x`, `y` without "$", the input made of
`x`, `y` and the fields 2 to 5 of `s` has these six fields, and on it
`decodeArgonHash` returns the same parameters, salt, key and error as on `s`,
and `VerifyPassword` the same result. -/
theorem C20_first_two_fields_ignored (kdf : Kdf) (a : Argon) (password : List Char)
    (s f0 f1 f2 f3 f4 f5 x y : List Char)
    (hs : Split s '$' = [f0, f1, f2, f3, f4, f5]) (hx : '$' ∉ x) (hy : '$' ∉ y) :
    Split (x ++ '$' :: (y ++ '$' :: (f2 ++ '$' :: (f3 ++ '$' :: (f4 ++ '$' :: f5))))) '$' =
        [x, y, f2, f3, f4, f5] ∧
      decodeArgonHash
          (x ++ '$' :: (y ++ '$' :: (f2 ++ '$' :: (f3 ++ '$' :: (f4 ++ '$' :: f5))))) =
        decodeArgonHash s ∧
      VerifyPassword kdf a password
          (x ++ '$' :: (y ++ '$' :: (f2 ++ '$' :: (f3 ++ '$' :: (f4 ++ '$' :: f5))))) =
        VerifyPassword kdf a password s := by
  have hf := Split_fields_no_sep s '$'
  rw [hs] at hf
  have h2 : '$' ∉ f2 := hf f2 (by simp)
  have h3 : '$' ∉ f3 := hf f3 (by simp)
  have h4 : '$' ∉ f4 := hf f4 (by simp)
  have h5 : '$' ∉ f5 := hf f5 (by simp)
  have hsplit : Split (x ++ '$' :: (y ++ '$' :: (f2 ++ '$' :: (f3 ++ '$' ::
      (f4 ++ '$' :: f5))))) '$' = [x, y, f2, f3, f4, f5] := by
    rw [Split_append _ _ _ hx, Split_append _ _ _ hy, Split_append _ _ _ h2,
      Split_append _ _ _ h3, Split_append _ _ _ h4, Split_of_not_mem _ _ h5]
  have hdec : decodeArgonHash
      (x ++ '$' :: (y ++ '$' :: (f2 ++ '$' :: (f3 ++ '$' :: (f4 ++ '$' :: f5))))) =
      decodeArgonHash s := by
    rw [decodeArgonHash_of_fields _ _ _ _ _ _ _ hsplit, decodeArgonHash_of_fields _ _ _ _ _ _ _ hs]
  refine ⟨hsplit, hdec, ?_⟩
  unfold VerifyPassword
  rw [hdec]

theorem C20_first_two_fields_ignored_witness :
    (Split "$argon2id$v=19$m=65536,t=3,p=2$BwgJCg$AgMEBQY".toList '$' =
        ["".toList, "argon2id".toList, "v=19".toList, "m=65536,t=3,p=2".toList,
          "BwgJCg".toList, "AgMEBQY".toList] ∧
      '$' ∉ "x".toList ∧ '$' ∉ "argon2i".toList) ∧
    "x".toList ++ '$' :: ("argon2i".toList ++ '$' :: ("v=19".toList ++ '$' ::
        ("m=65536,t=3,p=2".toList ++ '$' :: ("BwgJCg".toList ++ '$' :: "AgMEBQY".toList)))) =
      "x$argon2i$v=19$m=65536,t=3,p=2$BwgJCg$AgMEBQY".toList ∧
    (Split ("x".toList ++ '$' :: ("argon2i".toList ++ '$' :: ("v=19".toList ++ '$' ::
        ("m=65536,t=3,p=2".toList ++ '$' :: ("BwgJCg".toList ++ '$' ::
          "AgMEBQY".toList))))) '$' =
        ["x".toList, "argon2i".toList, "v=19".toList, "m=65536,t=3,p=2".toList,
          "BwgJCg".toList, "AgMEBQY".toList] ∧
      decodeArgonHash ("x".toList ++ '$' :: ("argon2i".toList ++ '$' :: ("v=19".toList ++ '$' ::
        ("m=65536,t=3,p=2".toList ++ '$' :: ("BwgJCg".toList ++ '$' ::
          "AgMEBQY".toList))))) =
        decodeArgonHash "$argon2id$v=19$m=65536,t=3,p=2$BwgJCg$AgMEBQY".toList ∧
      VerifyPassword sampleKdf sampleService "pw".toList
        ("x".toList ++ '$' :: ("argon2i".toList ++ '$' :: ("v=19".toList ++ '$' ::
          ("m=65536,t=3,p=2".toList ++ '$' :: ("BwgJCg".toList ++ '$' ::
            "AgMEBQY".toList))))) =
        VerifyPassword sampleKdf sampleService "pw".toList
          "$argon2id$v=19$m=65536,t=3,p=2$BwgJCg$AgMEBQY".toList) :=
  ⟨⟨by decide, by decide, by decide⟩, by decide,
    C20_first_two_fields_ignored sampleKdf sampleService "pw".toList
      "$argon2id$v=19$m=65536,t=3,p=2$BwgJCg$AgMEBQY".toList
      "".toList "argon2id".toList "v=19".toList "m=65536,t=3,p=2".toList "BwgJCg".toList
      "AgMEBQY".toList "x".toList "argon2i".toList (by decide) (by decide) (by decide)⟩

end Hash
